import Mathlib

/-!
Verification development for the InertiaNode documentation site
(`inertianode.com`).  The repository's executable logic consists of two
Docsify browser plugins:

* `docs/assets/framework-switcher.js` — scans `pre > code` blocks, detects a
  framework marker per block, groups adjacent annotated blocks, and toggles
  visibility based on a selected framework persisted in local storage.
* the on-this-page plugin — scans rendered headings, builds a sidebar table
  of contents, and tracks scroll position to highlight the active section.

Both are shallowly embedded below.  The DOM is modelled as explicit data:
the rendered page content is a list of sibling elements of one container
(which is the shape Docsify produces and the shape all the verified
scenarios live in), code elements carry their text content, class list and
`data-*` attributes, and regular expressions configured by the user are
modelled as abstract capture functions `String → Option String` (the code
only ever uses `.match` for capture group 1 and `.test`).  Pixel positions
are modelled as integers.  Asynchronous glue (`requestAnimationFrame`,
`setTimeout`, PrismJS re-highlighting, CSS injection) has no effect on the
properties below and is not modelled.
-/

namespace StrOps

/-- JS `String.prototype.trim`: drop leading and trailing whitespace.
(Defined over the character list so that concrete instances reduce by
`rfl`/`decide`.) -/
def jsTrim (s : String) : String :=
  String.mk (((s.data.dropWhile Char.isWhitespace).reverse.dropWhile
    Char.isWhitespace).reverse)

/-- JS `String.prototype.startsWith`. -/
def strStarts (s pre : String) : Bool :=
  pre.data.isPrefixOf s.data

/-- JS `String.prototype.toLowerCase` (ASCII, as the site's inputs are). -/
def lowerStr (s : String) : String :=
  String.mk (s.data.map Char.toLower)

/-- Drop the first character (JS `substring(1)`). -/
def dropHead (s : String) : String :=
  String.mk (s.data.drop 1)

/-- Remove the first occurrence of a pattern (JS `String.prototype.replace`
with a string pattern and an empty replacement). -/
def removeFirstList (pat : List Char) : List Char → List Char
  | [] => []
  | c :: rest =>
    if pat.isPrefixOf (c :: rest) then List.drop (pat.length - 1) rest
    else c :: removeFirstList pat rest

/-- `removeFirstList` on strings. -/
def removeFirstSub (s pat : String) : String :=
  String.mk (removeFirstList pat.data s.data)

/-- Whether a pattern occurs as a substring. -/
def hasSubstrList (pat : List Char) : List Char → Bool
  | [] => pat.isEmpty
  | c :: rest => pat.isPrefixOf (c :: rest) || hasSubstrList pat rest

/-- `hasSubstrList` on strings. -/
def hasSubstr (s pat : String) : Bool :=
  hasSubstrList pat.data s.data

end StrOps

open StrOps

namespace FwSwitcher

/-- Line splitting on the JS regexp of an optional carriage return
followed by a newline: every CRLF pair and every bare newline separates
lines (a carriage return not followed by a newline stays in its line). -/
def splitLinesAux : List Char → List Char → List String
  | acc, [] => [String.mk acc.reverse]
  | acc, '\r' :: '\n' :: rest => String.mk acc.reverse :: splitLinesAux [] rest
  | acc, '\n' :: rest => String.mk acc.reverse :: splitLinesAux [] rest
  | acc, c :: rest => splitLinesAux (c :: acc) rest

/-- The lines of a code block's text content. -/
def splitLines (s : String) : List String :=
  splitLinesAux [] s.data

/-- A user-configured JS regular expression, abstracted to the two
operations the plugin performs with it: `pat line` is `line.match(pat)`
restricted to capture group 1 (`none` when the regexp does not match). -/
abbrev CapturePat := String → Option String

/-- The `test` operation of a possibly-absent pattern:
`CONFIG.p && CONFIG.p.test(line)`. -/
def patTest (p : Option CapturePat) (s : String) : Bool :=
  match p with
  | none => false
  | some pat => (pat s).isSome

/-- The resolved `CONFIG` object of `framework-switcher.js` (lines 86-94).
`frameworkNames` is the display-name map, as an association list. -/
structure Config where
  storageKey : String := "docsify-fw"
  frameworks : List String := []
  defaultFramework : String := ""
  frameworkNames : List (String × String) := []
  markerPattern : Option CapturePat := none
  labelPattern : Option CapturePat := none
  maxLinesToCheck : Nat := 5

/-- `normalizeFrameworkName` (lines 108-114):
`name.toLowerCase().replace(/\s+/g, "")`. -/
def normalizeFrameworkName (name : String) : String :=
  String.mk ((lowerStr name).data.filter (fun c => !c.isWhitespace))

/-- The comment test of the detection loops (lines 162-168 and 229-235):
the trimmed line starts with `//`, `#` or an HTML comment opener. -/
def isCommentStart (line : String) : Bool :=
  strStarts (jsTrim line) "//" || strStarts (jsTrim line) "#" ||
    strStarts (jsTrim line) (String.mk ['<', '!', '-', '-'])

/-- A `<pre><code>` block: its text content, the code element's classes,
its `data-framework` / `data-marker-stripped` attributes, and whether the
parent `pre` carries the `fw-hidden` class. -/
structure CodeBlock where
  content : String
  classes : List String := []
  datasetFramework : Option String := none
  datasetMarkerStripped : Bool := false
  preHidden : Bool := false
deriving DecidableEq, Repr

/-- A block-level element of the rendered page content: a `<pre><code>`
block, a paragraph with its text content, or any other element. -/
inductive Elem where
  | code (cb : CodeBlock)
  | para (text : String)
  | other
deriving DecidableEq, Repr

/-- A comment-style marker hit on one line (lines 132-147): the marker
pattern matches, and the normalized captured name is a configured
framework. -/
def markerHit (cfg : Config) (line : String) : Option String :=
  match cfg.markerPattern with
  | none => none
  | some pat =>
    match pat line with
    | none => none
    | some captured =>
      let fw := normalizeFrameworkName captured
      if cfg.frameworks.contains fw then some fw else none

/-- A label-style hit on one line (lines 150-159), analogous to
`markerHit` with the label pattern. -/
def labelHit (cfg : Config) (line : String) : Option String :=
  match cfg.labelPattern with
  | none => none
  | some pat =>
    match pat line with
    | none => none
    | some captured =>
      let fw := normalizeFrameworkName captured
      if cfg.frameworks.contains fw then some fw else none

/-- Which branch of `detectFramework` produced the result. -/
inductive DetSrc where
  | marker
  | label
  | prevPara
  | classAttr
deriving DecidableEq, Repr

/-- The line scan of `detectFramework` (lines 126-169): iterate over at
most `maxLinesToCheck` lines; skip blank lines; on each non-blank line try
the comment-style marker, then the label pattern; stop at the first
non-blank line that does not start like a comment (the pattern checks on
that very line happen before the stop). -/
def scanLines (cfg : Config) : Nat → List String → Option (String × DetSrc)
  | 0, _ => none
  | _, [] => none
  | fuel + 1, line :: rest =>
    if jsTrim line = "" then scanLines cfg fuel rest
    else
      match markerHit cfg line with
      | some fw => some (fw, DetSrc.marker)
      | none =>
        match labelHit cfg line with
        | some fw => some (fw, DetSrc.label)
        | none =>
          if isCommentStart line then scanLines cfg fuel rest else none

/-- The previous-sibling check of `detectFramework` (lines 171-183): when
the element before the block's `pre` is a paragraph, match the label
pattern against its trimmed text and keep a configured framework. -/
def prevParaHit (cfg : Config) (prev : Option Elem) : Option String :=
  match prev with
  | some (Elem.para t) =>
    (match cfg.labelPattern with
     | none => none
     | some pat =>
       match pat (jsTrim t) with
       | none => none
       | some captured =>
         let fw := normalizeFrameworkName captured
         if cfg.frameworks.contains fw then some fw else none)
  | _ => none

/-- The detection body of `detectFramework` (lines 122-199), without the
`dataset.framework` cache: line scan, then previous-sibling label
paragraph, then the class-name fallback (first configured framework whose
name appears in the code element's class list).  The `DetSrc` component
records which branch fired. -/
def detectWithSrc (cfg : Config) (cb : CodeBlock) (prev : Option Elem) :
    Option (String × DetSrc) :=
  match scanLines cfg cfg.maxLinesToCheck (splitLines cb.content) with
  | some r => some r
  | none =>
    match prevParaHit cfg prev with
    | some fw => some (fw, DetSrc.prevPara)
    | none =>
      match cfg.frameworks.find? (fun fw => cb.classes.contains fw) with
      | some fw => some (fw, DetSrc.classAttr)
      | none => none

/-- The uncached path of `detectFramework`: run the detection body and, on
success, cache the result in `dataset.framework` (lines 143, 155, 179,
194). -/
def detectStore (cfg : Config) (cb : CodeBlock) (prev : Option Elem) :
    Option String × CodeBlock :=
  match detectWithSrc cfg cb prev with
  | some (fw, _) => (some fw, { cb with datasetFramework := some fw })
  | none => (none, cb)

/-- `detectFramework` (lines 116-200).  A present `dataset.framework` is
returned directly (lines 118-120); in JS the guard is truthiness, so an
empty string in the dataset does not count as cached.  The result pairs
the detected framework with the (possibly cache-updated) element. -/
def detectFramework (cfg : Config) (cb : CodeBlock) (prev : Option Elem) :
    Option String × CodeBlock :=
  match cb.datasetFramework with
  | some fw => if fw = "" then detectStore cfg cb prev else (some fw, cb)
  | none => detectStore cfg cb prev

/-- The line scan of `stripMarkerLine` (lines 208-236): find, within the
first `maxLinesToCheck` lines, skipping blanks and marker-free comment
lines, a line on which the marker or label pattern tests positive; return
the line list without it, or `none` when the scan ends without deleting. -/
def stripScan (cfg : Config) : Nat → List String → Option (List String)
  | 0, _ => none
  | _, [] => none
  | fuel + 1, line :: rest =>
    if jsTrim line = "" then (stripScan cfg fuel rest).map (line :: ·)
    else if patTest cfg.markerPattern line then some rest
    else if patTest cfg.labelPattern line then some rest
    else if isCommentStart line then (stripScan cfg fuel rest).map (line :: ·)
    else none

/-- `stripMarkerLine` (lines 202-239): a no-op when `data-marker-stripped`
is `"true"`; otherwise delete the found line (the JS `lines.splice(i, 1)`
followed by `lines.join("\n")`) and set the flag — the flag is set even
when nothing was deleted. -/
def stripMarkerLine (cfg : Config) (cb : CodeBlock) : CodeBlock :=
  if cb.datasetMarkerStripped then cb
  else
    match stripScan cfg cfg.maxLinesToCheck (splitLines cb.content) with
    | some newLines =>
      { cb with content := String.intercalate "\n" newLines,
                datasetMarkerStripped := true }
    | none => { cb with datasetMarkerStripped := true }

/-- `formatFrameworkName` (lines 241-246). -/
def formatFrameworkName (cfg : Config) (fw : String) : String :=
  match (cfg.frameworkNames.find? (fun p => p.1 = fw)).map (·.2) with
  | some n => n
  | none =>
    match fw.toList with
    | [] => ""
    | c :: cs => String.mk (c.toUpper :: cs)

/-- A switcher button: its framework, `aria-pressed` state, display label,
and whether `updateAllSwitchers` has hidden it. -/
structure Button where
  fw : String
  pressed : Bool
  label : String
  btnHidden : Bool := false
deriving DecidableEq, Repr

/-- `createSwitcher` (lines 248-276): one button per available framework,
in order, pressed exactly for the selected framework. -/
def createSwitcher (cfg : Config) (selected : String) (avail : List String) :
    List Button :=
  avail.map (fun fw =>
    { fw := fw, pressed := fw = selected, label := formatFrameworkName cfg fw })

/-- A member of a framework group (`div.fw-group`): a moved `<pre><code>`
block or a moved framework-label paragraph.  The switcher is kept apart as
the group's first child. -/
inductive GElem where
  | gpre (cb : CodeBlock)
  | glabel (text : String)
deriving DecidableEq, Repr

/-- The element a group member presents to a following sibling's
`previousElementSibling` check. -/
def gElemAsElem : GElem → Elem
  | GElem.gpre cb => Elem.code cb
  | GElem.glabel t => Elem.para t

/-- A block-level element of the page after `processPage` ran: the
original kinds plus framework groups.  A group holds its switcher (always
exactly one, the group's first child) and the moved members. -/
inductive OutElem where
  | ocode (cb : CodeBlock)
  | opara (text : String)
  | oother
  | ogroup (switcher : List Button) (members : List GElem)
deriving DecidableEq, Repr

/-- Untouched elements of the page keep their kind in the output. -/
def elemToOut : Elem → OutElem
  | Elem.code cb => OutElem.ocode cb
  | Elem.para t => OutElem.opara t
  | Elem.other => OutElem.oother

/-- A batch member put back in place when its batch is too small to group. -/
def gElemToOut : GElem → OutElem
  | GElem.gpre cb => OutElem.ocode cb
  | GElem.glabel t => OutElem.opara t

/-- The detected frameworks of a group's code blocks in order (the
membership content of the `frameworks` set of `getAvailableFrameworks`,
lines 331-345).  `prev` tracks each member's previous sibling for the
label-paragraph branch of detection; the first member's previous sibling
is the switcher `div`.  The cache writes of these repeated detections are
dropped here: every reachable call happens after the blocks were already
detected and cached, so re-detection returns the cached value and writes
nothing new. -/
def collectFws (cfg : Config) : Option Elem → List GElem → List String
  | _, [] => []
  | _, GElem.glabel t :: rest =>
    collectFws cfg (some (Elem.para t)) rest
  | prev, GElem.gpre cb :: rest =>
    match (detectFramework cfg cb prev).1 with
    | some fw => fw :: collectFws cfg (some (Elem.code cb)) rest
    | none => collectFws cfg (some (Elem.code cb)) rest

/-- `getAvailableFrameworks` (lines 331-345): the configured frameworks,
in configured order, that some block of the group carries. -/
def getAvailableFrameworks (cfg : Config) (members : List GElem) : List String :=
  cfg.frameworks.filter (fun fw => (collectFws cfg (some Elem.other) members).contains fw)

/-- First pass of `updateGroupVisibility` (lines 283-303): for every code
block with a framework, add `fw-hidden` exactly when the framework differs
from the current one.  The second component records whether some block's
framework equals the current one (the JS `visibleFramework !== null`). -/
def ugvPass1 (cfg : Config) (cur : String) :
    Option Elem → List GElem → List GElem × Bool
  | _, [] => ([], false)
  | _, GElem.glabel t :: rest =>
    let p := ugvPass1 cfg cur (some (Elem.para t)) rest
    (GElem.glabel t :: p.1, p.2)
  | prev, GElem.gpre cb :: rest =>
    let d := detectFramework cfg cb prev
    let cb2 := match d.1 with
      | some fw => if fw = cur then { d.2 with preHidden := false }
                   else { d.2 with preHidden := true }
      | none => d.2
    let vis := match d.1 with
      | some fw => fw = cur
      | none => false
    let p := ugvPass1 cfg cur (some (Elem.code cb)) rest
    (GElem.gpre cb2 :: p.1, vis || p.2)

/-- Fallback pass of `updateGroupVisibility` (lines 306-319): remove
`fw-hidden` from every block of the first available framework. -/
def ugvPass2 (cfg : Config) (first : String) :
    Option Elem → List GElem → List GElem
  | _, [] => []
  | _, GElem.glabel t :: rest =>
    GElem.glabel t :: ugvPass2 cfg first (some (Elem.para t)) rest
  | prev, GElem.gpre cb :: rest =>
    let d := detectFramework cfg cb prev
    let cb2 := if d.1 = some first then { d.2 with preHidden := false } else d.2
    GElem.gpre cb2 :: ugvPass2 cfg first (some (Elem.code cb)) rest

/-- Whether a group member list contains a code block
(`codeBlocks.length > 0`). -/
def hasCodeBlock (members : List GElem) : Bool :=
  members.any (fun g => match g with
    | GElem.gpre _ => true
    | _ => false)

/-- `updateGroupVisibility` (lines 278-329) on a group's member list: the
matching pass, then, when no block matches the current framework, the
first-available fallback.  Prism re-highlighting has no modelled effect. -/
def updateGroupVisibility (cfg : Config) (cur : String) (members : List GElem) :
    List GElem :=
  let p := ugvPass1 cfg cur (some Elem.other) members
  if !p.2 && hasCodeBlock p.1 then
    match getAvailableFrameworks cfg p.1 with
    | [] => p.1
    | first :: _ => ugvPass2 cfg first (some Elem.other) p.1
  else p.1

/-- `updateAllGroups` (lines 347-350) over the processed page. -/
def updateAllGroups (cfg : Config) (cur : String) (page : List OutElem) :
    List OutElem :=
  page.map (fun e => match e with
    | OutElem.ogroup sw members =>
      OutElem.ogroup sw (updateGroupVisibility cfg cur members)
    | x => x)

/-- Press the first button of the given framework
(`querySelector('button[data-framework="..."]')`, lines 382-387). -/
def pressFirst : List Button → String → List Button
  | [], _ => []
  | b :: rest, fw =>
    if b.fw = fw then { b with pressed := true } :: rest
    else b :: pressFirst rest fw

/-- `updateAllSwitchers` (lines 352-390): hide buttons of unavailable
frameworks, refresh `aria-pressed` on the rest, and when the current
framework is unavailable press the first available one's button. -/
def updateAllSwitchers (cfg : Config) (cur : String) (page : List OutElem) :
    List OutElem :=
  page.map (fun e => match e with
    | OutElem.ogroup sw members =>
      let avail := getAvailableFrameworks cfg members
      let sw1 := sw.map (fun b =>
        if !avail.contains b.fw then { b with btnHidden := true }
        else { b with btnHidden := false, pressed := b.fw = cur })
      let sw2 :=
        if !avail.contains cur then
          match avail with
          | [] => sw1
          | first :: _ => pressFirst sw1 first
        else sw1
      OutElem.ogroup sw2 members
    | x => x)

/-- The sibling test of `isAdjacentBlock` (lines 406-426): an element
between two grouped blocks is skippable when it is a paragraph that is
empty or holds only a framework label. -/
def skippable (cfg : Config) (e : Elem) : Bool :=
  match e with
  | Elem.para t => jsTrim t = "" || patTest cfg.labelPattern (jsTrim t)
  | _ => false

/-- The move test of `createGroupFromBatch` (lines 497-505): a paragraph
between the batch's blocks is moved into the group exactly when it is a
framework label. -/
def isLabelPara (cfg : Config) (e : Elem) : Bool :=
  match e with
  | Elem.para t => patTest cfg.labelPattern (jsTrim t)
  | _ => false

/-- A label paragraph as a group member. -/
def labelOf (cfg : Config) (e : Elem) : Option GElem :=
  match e with
  | Elem.para t => if patTest cfg.labelPattern (jsTrim t) then some (GElem.glabel t) else none
  | _ => none

/-- The `batchFrameworks.add` of `processPage`: set insertion, kept as an
insertion-ordered duplicate-free list (only membership is ever used). -/
def addFw (l : List String) (fw : String) : List String :=
  if l.contains fw then l else l ++ [fw]

/-- The iteration state of `processPage`'s main loop (lines 447-448 and
the DOM): emitted output so far, the current batch's moved members, the
number of blocks in it (`currentBatch.length`), its framework set, the
not-moved elements within the batch's span (empty paragraphs left behind
by `createGroupFromBatch`), and the elements seen since the batch's last
block (classified on the next adjacency decision). -/
structure PState where
  out : List OutElem := []
  batch : List GElem := []
  nblocks : Nat := 0
  bfws : List String := []
  left : List Elem := []
  pend : List Elem := []
deriving Repr

/-- Initial visibility of a fresh group (lines 516-526): blocks with a
framework different from the group's selected one get `fw-hidden`. -/
def applyInitialVisibility (cfg : Config) (selected : String) :
    Option Elem → List GElem → List GElem
  | _, [] => []
  | _, GElem.glabel t :: rest =>
    GElem.glabel t :: applyInitialVisibility cfg selected (some (Elem.para t)) rest
  | prev, GElem.gpre cb :: rest =>
    let d := detectFramework cfg cb prev
    let cb2 := match d.1 with
      | some fw => if fw = selected then d.2 else { d.2 with preHidden := true }
      | none => d.2
    GElem.gpre cb2 :: applyInitialVisibility cfg selected (some (Elem.code cb)) rest

/-- The group's selected framework (lines 472-479): the current framework
when available in the batch, otherwise the first available one. -/
def selectedFor (cur : String) (avail : List String) : String :=
  if avail.contains cur then cur
  else match avail with
    | [] => cur
    | f :: _ => f

/-- `createGroupFromBatch` (lines 450-537): a batch of fewer than two
blocks is dropped in place; otherwise a `div.fw-group` replaces the
batch's span, holding the switcher and the moved members with initial
visibility applied, followed in the document by the span's not-moved
elements and the elements pending after the batch's last block. -/
def closeBatch (cfg : Config) (cur : String) (st : PState) : PState :=
  if st.nblocks < 2 then
    { out := st.out ++ st.batch.map gElemToOut ++ st.left.map elemToOut
        ++ st.pend.map elemToOut,
      batch := [], nblocks := 0, bfws := [], left := [], pend := [] }
  else
    let avail := cfg.frameworks.filter (fun fw => st.bfws.contains fw)
    let selected := selectedFor cur avail
    let sw := createSwitcher cfg selected avail
    let members := applyInitialVisibility cfg selected (some Elem.other) st.batch
    { out := st.out ++ [OutElem.ogroup sw members] ++ st.left.map elemToOut
        ++ st.pend.map elemToOut,
      batch := [], nblocks := 0, bfws := [], left := [], pend := [] }

/-- One element of the page, seen by `processPage`'s iteration (lines
540-563).  Code blocks are detected (caching), stripped when annotated,
and batched by adjacency; any other element is emitted directly when no
batch is open, or kept pending behind the open batch. -/
def step (cfg : Config) (cur : String) (st : PState) (prev : Option Elem)
    (e : Elem) : PState :=
  match e with
  | Elem.code cb =>
    let d := detectFramework cfg cb prev
    match d.1 with
    | none =>
      let st' := closeBatch cfg cur st
      { st' with out := st'.out ++ [OutElem.ocode d.2] }
    | some fw =>
      let cb2 := stripMarkerLine cfg d.2
      if st.nblocks = 0 then
        { st with batch := st.batch ++ [GElem.gpre cb2], nblocks := 1,
                  bfws := addFw st.bfws fw }
      else if st.pend.all (skippable cfg) then
        { st with
          batch := st.batch ++ st.pend.filterMap (labelOf cfg) ++ [GElem.gpre cb2],
          left := st.left ++ st.pend.filter (fun x => !isLabelPara cfg x),
          nblocks := st.nblocks + 1,
          bfws := addFw st.bfws fw,
          pend := [] }
      else
        let st' := closeBatch cfg cur st
        { st' with batch := [GElem.gpre cb2], nblocks := 1,
                   bfws := addFw st'.bfws fw }
  | _ =>
    if st.nblocks = 0 then { st with out := st.out ++ [elemToOut e] }
    else { st with pend := st.pend ++ [e] }

/-- The fold of `processPage` over the page's elements, tracking every
element's previous sibling in the rendered page. -/
def runElems (cfg : Config) (cur : String) :
    PState → Option Elem → List Elem → PState
  | st, _, [] => st
  | st, prev, e :: es => runElems cfg cur (step cfg cur st prev e) (some e) es

/-- `processPage` (lines 431-566) on a freshly rendered page (the content
container's children; a fresh render holds no `.fw-group`, so the initial
dataset-clearing loop over existing groups touches nothing): batch
adjacent annotated blocks and group every closed batch of two or more. -/
def processPage (cfg : Config) (cur : String) (page : List Elem) : List OutElem :=
  (closeBatch cfg cur (runElems cfg cur {} none page)).out

/-- The plugin's mutable state: the module-level `currentFramework` and
the browser's local storage, as a key-to-value map. -/
structure SwState where
  current : String
  storage : String → Option String

/-- The write `localStorage.setItem(k, v)`. -/
def setItem (storage : String → Option String) (k v : String) :
    String → Option String :=
  fun k2 => if k2 = k then some v else storage k2

/-- The module-level initialisation (lines 96-97):
`localStorage.getItem(CONFIG.storageKey) || CONFIG.defaultFramework` —
in JS an empty stored string is falsy and falls back to the default. -/
def pluginStartup (cfg : Config) (storage : String → Option String) : SwState :=
  { current :=
      match storage cfg.storageKey with
      | some v => if v = "" then cfg.defaultFramework else v
      | none => cfg.defaultFramework,
    storage := storage }

/-- The `hook.init` validation (lines 570-576): an unconfigured current
framework is replaced by the default, which is persisted. -/
def hookInit (cfg : Config) (st : SwState) : SwState :=
  if cfg.frameworks.contains st.current then st
  else { current := cfg.defaultFramework,
         storage := setItem st.storage cfg.storageKey cfg.defaultFramework }

/-- `setFramework` (lines 99-106): a no-op for the already-current
framework; otherwise update the module state, persist under
`CONFIG.storageKey`, and refresh every group's visibility and switcher. -/
def setFramework (cfg : Config) (st : SwState) (page : List OutElem)
    (framework : String) : SwState × List OutElem :=
  if st.current = framework then (st, page)
  else
    let st' : SwState :=
      { current := framework,
        storage := setItem st.storage cfg.storageKey framework }
    (st', updateAllSwitchers cfg st'.current
            (updateAllGroups cfg st'.current page))

end FwSwitcher

namespace OnThisPage

/-- A heading element of the rendered content: its level (the digit of the
tag name), its text content, and its `id` attribute (`""` when absent). -/
structure Heading where
  level : Nat
  text : String
  id : String := ""
deriving DecidableEq, Repr

/-- A node of the generated sidebar list: a list item holding the link
(text, `href`, `data-heading-id`) and the nested lists later appended
inside it, or a nested `ul` appended directly to a list. -/
inductive Node where
  | li (text : String) (href : String) (hid : String) (children : List Node)
  | ul (children : List Node)
deriving Repr

/-- A link of the generated sidebar, in creation order. -/
structure TocLink where
  text : String
  href : String
  hid : String
deriving DecidableEq, Repr

/-- Replace runs of characters satisfying `p` by a single `rep` — the JS
global replace of `/\s+/` (and, with the hyphen predicate, the JS replace
of two-or-more hyphen runs; a run of length one is mapped to itself there,
so the effect agrees). -/
def collapseRuns (p : Char → Bool) (rep : Char) : List Char → List Char
  | [] => []
  | c :: rest =>
    if p c then rep :: collapseRuns p rep (rest.dropWhile p)
    else c :: collapseRuns p rep rest
termination_by l => l.length
decreasing_by
  · simp only [List.length_cons]
    exact Nat.lt_succ_of_le (List.Sublist.length_le (List.dropWhile_sublist _))
  · simp only [List.length_cons]
    omega

/-- The id generation of `createOnThisPageSidebar` (lines 248-253):
lowercase, drop characters outside `\w`, `\s` and `-`, turn whitespace
runs into single hyphens, squeeze hyphen runs, and trim.  (`\w` in an
unflagged JS regexp is ASCII `[A-Za-z0-9_]`.) -/
def headingSlug (text : String) : String :=
  let kept := (lowerStr text).data.filter
    (fun c => c.isAlphanum || c = '_' || c = '-' || c.isWhitespace)
  let hyphenated := collapseRuns Char.isWhitespace '-' kept
  jsTrim (String.mk (collapseRuns (fun c => c = '-') '-' hyphenated))

/-- The hash fallback of the permalink path (line 296):
`window.location.hash.replace("#/", "").split("?")[0]` — remove the first
occurrence of `"#/"`, then keep the part before the first question
mark. -/
def hashPath (hash : String) : String :=
  String.mk (((removeFirstSub hash (String.mk ['#', '/'])).data).takeWhile
    (fun c => c ≠ '?'))

/-- The permalink path (lines 287-302): the stored Docsify route without
its leading slash, the location-hash path when that is empty, and
`"README"` when both are. -/
def docPath (route hash : String) : String :=
  let p := if strStarts route "/" then dropHead route else route
  let p := if p = "" then hashPath hash else p
  if p = "" then "README" else p

/-- The state of the sidebar builder: the stack of open lists (top first,
each frame the list's children so far), `currentLevel`, and the links
created so far. -/
structure TocState where
  stack : List (List Node) := [[]]
  currentLevel : Nat := 0
  links : List TocLink := []

/-- Appending a completed nested list where the DOM put it at creation
time: inside the parent list's last element when there is one
(`lastLi.appendChild`, even when that last element is itself a list),
else directly on the parent list.  Deferring the attachment to the
moment the nested list is complete is sound because nothing is ever
appended to a list while a deeper one is open. -/
def attachChild (frame : List Node) (child : Node) : List Node :=
  match frame.getLast? with
  | none => frame ++ [child]
  | some (Node.li t h i cs) => frame.dropLast ++ [Node.li t h i (cs ++ [child])]
  | some (Node.ul cs) => frame.dropLast ++ [Node.ul (cs ++ [child])]

/-- Close the top list and attach it to its parent (`listStack.pop()`
together with the attachment its creation performed in the DOM). -/
def popFrame : List (List Node) → List (List Node)
  | top :: parent :: rest => attachChild parent (Node.ul top) :: rest
  | s => s

/-- The pop loop for a shallower heading (lines 271-278): pop `n` times
while more than one list is on the stack. -/
def popN : Nat → List (List Node) → List (List Node)
  | 0, s => s
  | n + 1, s => if s.length ≤ 1 then s else popN n (popFrame s)

/-- The push loop for a deeper heading (lines 258-270):
`for (i = currentLevel; i < level - 1; i++)` opens `level - 1 -
currentLevel` nested lists (none when the level grows by exactly one). -/
def pushN : Nat → List (List Node) → List (List Node)
  | 0, s => s
  | n + 1, s => pushN n ([] :: s)

/-- The nesting adjustment for one heading (lines 257-280). -/
def adjustNesting (st : TocState) (level : Nat) : TocState :=
  if st.currentLevel < level then
    { st with stack := pushN (level - 1 - st.currentLevel) st.stack }
  else if level < st.currentLevel then
    { st with stack := popN (st.currentLevel - level + 1) st.stack }
  else st

/-- Append a list item to the open list. -/
def pushLi (st : TocState) (n : Node) : TocState :=
  match st.stack with
  | top :: rest => { st with stack := (top ++ [n]) :: rest }
  | [] => { st with stack := [[n]] }

/-- One heading of the `headings.forEach` of `createOnThisPageSidebar`
(lines 238-310): skip `h1`; take or generate the id (writing a generated
id back onto the heading); adjust nesting; append the list item and
link. -/
def processHeading (route hash : String) (st : TocState) (h : Heading) :
    TocState × Heading :=
  if h.level = 1 then (st, h)
  else
    let text := jsTrim h.text
    let id := if h.id = "" then headingSlug text else h.id
    let h2 := if h.id = "" then { h with id := id } else h
    let st1 := adjustNesting st h.level
    let href := "#/" ++ docPath route hash ++ "?id=" ++ id
    let st2 := pushLi st1 (Node.li text href id [])
    ({ st2 with currentLevel := h.level,
                links := st2.links ++ [{ text := text, href := href, hid := id }] },
      h2)

/-- The fold of the heading loop, also returning the headings with the
ids the loop assigned. -/
def buildTocAux (route hash : String) :
    TocState → List Heading → TocState × List Heading
  | st, [] => (st, [])
  | st, h :: hs =>
    let p := processHeading route hash st h
    let q := buildTocAux route hash p.1 hs
    (q.1, p.2 :: q.2)

/-- Materialise the finished stack into the root list's children (the
attachments already happened in the DOM as the lists were created). -/
def finalizeStackF : Nat → List (List Node) → List Node
  | _, [] => []
  | _, [f] => f
  | 0, _ => []
  | n + 1, top :: parent :: rest =>
    finalizeStackF n (attachChild parent (Node.ul top) :: rest)

/-- Materialise the finished stack into the root list's children; the
fuel — the stack's length — always suffices, each closing step removing
one frame. -/
def finalizeStack (s : List (List Node)) : List Node :=
  finalizeStackF s.length s

/-- The sidebar built from the page's headings: the root list's children,
the links in creation order, and the headings with assigned ids. -/
def buildToc (route hash : String) (headings : List Heading) :
    List Node × List TocLink × List Heading :=
  let r := buildTocAux route hash {} headings
  (finalizeStack r.1.stack, r.1.links, r.2)

/-- A list item of the left (Docsify) sidebar navigation: its direct link
(`href` and link text) when it has one, its own loose text, its `active`
class, and the items of its nested list. -/
inductive SbLi where
  | mk (link : Option (String × String)) (ownText : String) (active : Bool)
      (sub : List SbLi)
deriving Repr

/-- Direct link of a left-sidebar item. -/
def SbLi.link : SbLi → Option (String × String)
  | SbLi.mk l _ _ _ => l

/-- Nested items of a left-sidebar item. -/
def SbLi.sub : SbLi → List SbLi
  | SbLi.mk _ _ _ s => s

mutual
/-- `textContent` of a left-sidebar item (order of concatenation is
immaterial here: it is only ever tested for trimmed emptiness). -/
def sbText : SbLi → String
  | SbLi.mk link own _ sub =>
    own ++ (match link with
            | some (_, t) => t
            | none => "") ++ sbTextList sub

/-- `textContent` of a list of left-sidebar items. -/
def sbTextList : List SbLi → String
  | [] => ""
  | li :: rest => sbText li ++ sbTextList rest
end

mutual
/-- `li.querySelector("a")`: whether any link exists in the subtree. -/
def hasLinkDeep : SbLi → Bool
  | SbLi.mk link _ _ sub => link.isSome || hasLinkDeepList sub

/-- Link existence over a list of items. -/
def hasLinkDeepList : List SbLi → Bool
  | [] => false
  | li :: rest => hasLinkDeep li || hasLinkDeepList rest
end

/-- The valid-content test of the empty-list cleanup (lines 156-159):
some item of the list has a link or non-blank text. -/
def liValid (li : SbLi) : Bool :=
  hasLinkDeep li || jsTrim (sbText li) ≠ ""

mutual
/-- Capture of the active link (lines 133-140): the first `a` in document
order whose parent item carries `active` (`li.active > a`), returning its
`href` and trimmed text. -/
def findActiveLi : SbLi → Option (String × String)
  | SbLi.mk link _ act sub =>
    match act, link with
    | true, some (h, t) => some (h, jsTrim t)
    | _, _ => findActiveList sub

/-- Active-link capture over a list of items. -/
def findActiveList : List SbLi → Option (String × String)
  | [] => none
  | li :: rest =>
    match findActiveLi li with
    | some r => some r
    | none => findActiveList rest
end

/-- Whether an `href` contains the substring `"?id="` (the
`a[href*="?id="]` selector of line 144). -/
def hrefHasId (h : String) : Bool :=
  hasSubstr h "?id="

mutual
/-- The removal of auto-generated heading links (lines 142-150): every
item whose direct link's `href` contains `?id=` is removed with its
subtree. -/
def removeIdLinks : List SbLi → List SbLi
  | [] => []
  | SbLi.mk link own act sub :: rest =>
    if (match link with
        | some (h, _) => hrefHasId h
        | none => false) then removeIdLinks rest
    else SbLi.mk link own act (removeIdLinks sub) :: removeIdLinks rest
end

mutual
/-- The empty-list cleanup (lines 152-164) below one item: a nested list
with no valid content is removed before its own sublists are visited
(`querySelectorAll("ul")` is processed in document order, outermost
first). -/
def cleanLi : SbLi → SbLi
  | SbLi.mk link own act sub =>
    SbLi.mk link own act (if sub.any liValid then cleanLiList sub else [])

/-- The empty-list cleanup over the items of a surviving list. -/
def cleanLiList : List SbLi → List SbLi
  | [] => []
  | li :: rest => cleanLi li :: cleanLiList rest
end

/-- The empty-list cleanup at the navigation root. -/
def cleanNav (nav : List SbLi) : List SbLi :=
  if nav.any liValid then cleanLiList nav else []

/-- The empty-item test of lines 166-176: no link anywhere below, no
nested list, no text. -/
def keepLi (li : SbLi) : Bool :=
  hasLinkDeep li || !li.sub.isEmpty || jsTrim (sbText li) ≠ ""

mutual
/-- The empty-item cleanup (lines 166-176). -/
def pruneLi : SbLi → SbLi
  | SbLi.mk link own act sub => SbLi.mk link own act (pruneList sub)

/-- The empty-item cleanup over a list of items. -/
def pruneList : List SbLi → List SbLi
  | [] => []
  | li :: rest =>
    if keepLi li then pruneLi li :: pruneList rest
    else pruneList rest
end

mutual
/-- Restore by `href` (lines 180-185): activate the parent item of the
first link with the captured `href`. -/
def restoreHrefLi : SbLi → String → SbLi × Bool
  | SbLi.mk link own act sub, target =>
    if (match link with
        | some (h, _) => h == target
        | none => false) then (SbLi.mk link own true sub, true)
    else
      let r := restoreHrefList sub target
      (SbLi.mk link own act r.1, r.2)

/-- Restore by `href` over a list of items. -/
def restoreHrefList : List SbLi → String → List SbLi × Bool
  | [], _ => ([], false)
  | li :: rest, target =>
    let r := restoreHrefLi li target
    if r.2 then (r.1 :: rest, true)
    else
      let q := restoreHrefList rest target
      (r.1 :: q.1, q.2)
end

mutual
/-- Restore by link text (lines 187-197): activate the parent item of the
first link whose trimmed text equals the captured text. -/
def restoreTextLi : SbLi → String → SbLi × Bool
  | SbLi.mk link own act sub, target =>
    if (match link with
        | some (_, t) => jsTrim t == target
        | none => false) then (SbLi.mk link own true sub, true)
    else
      let r := restoreTextList sub target
      (SbLi.mk link own act r.1, r.2)

/-- Restore by link text over a list of items. -/
def restoreTextList : List SbLi → String → List SbLi × Bool
  | [], _ => ([], false)
  | li :: rest, target =>
    let r := restoreTextLi li target
    if r.2 then (r.1 :: rest, true)
    else
      let q := restoreTextList rest target
      (r.1 :: q.1, q.2)
end

/-- The active-state restoration (lines 179-199), guarded by JS
truthiness of the captured strings. -/
def restoreActive (nav : List SbLi) (href text : String) : List SbLi :=
  let r := restoreHrefList nav href
  if r.2 then r.1 else (restoreTextList nav text).1

/-- `removeNestedFromLeftSidebar` (lines 123-200).  The document's left
sidebar is `none` when `aside.sidebar` is missing and `some none` when it
exists without a `.sidebar-nav`; both make the function return with the
document untouched. -/
def removeNestedFromLeftSidebar :
    Option (Option (List SbLi)) → Option (Option (List SbLi))
  | none => none
  | some none => some none
  | some (some nav) =>
    let cap := findActiveList nav
    let n1 := removeIdLinks nav
    let n2 := cleanNav n1
    let n3 := pruneList n2
    let n4 :=
      match cap with
      | some (href, text) =>
        if href = "" || text = "" then n3 else restoreActive n3 href text
      | none => n3
    some (some n4)

/-- The document state the on-this-page plugin manipulates. -/
structure Doc where
  headings : List Heading
  leftSidebar : Option (Option (List SbLi))
  onThisPage : Option (List Node × List TocLink)
deriving Repr

/-- `createOnThisPageSidebar` (lines 202-324) at the document level:
remove any existing sidebar, return when the content has no headings,
otherwise clean the left sidebar and install the generated one.  (The
"view as markdown" link and the `setTimeout`-driven left-sidebar
active-state refresh affect no verified property and are not modelled;
the scroll-spy installation is modelled separately.) -/
def runCreateSidebar (route hash : String) (d : Doc) : Doc :=
  let d0 := { d with onThisPage := none }
  if d0.headings.isEmpty then d0
  else
    let ls := removeNestedFromLeftSidebar d0.leftSidebar
    let t := buildToc route hash d0.headings
    { headings := t.2.2, leftSidebar := ls, onThisPage := some (t.1, t.2.1) }

/-- The active heading of `updateActiveLink` (lines 431-447): scanning
from the last heading backwards, the first whose bounding-rect top is at
most 100 (pixels, as integers); when none qualifies, the first heading. -/
def activeHeadingId (heads : List (String × Int)) : Option String :=
  match (heads.reverse.find? (fun h => h.2 ≤ 100)).map (·.1) with
  | some i => some i
  | none => heads.head?.map (·.1)

/-- Activate the first link with the given heading id
(`querySelector('.on-this-page a[data-heading-id="..."]')`,
lines 450-457). -/
def markFirst : List (TocLink × Bool) → String → List (TocLink × Bool)
  | [], _ => []
  | (l, b) :: rest, i =>
    if l.hid = i then (l, true) :: rest else (l, b) :: markFirst rest i

/-- `updateActiveLink` (lines 423-461) over the sidebar links (paired
with their `active` class) and the resolved headings with their current
bounding-rect tops: clear every `active`, then set it on the active
heading's link. -/
def updateActiveLink (links : List (TocLink × Bool))
    (heads : List (String × Int)) : List (TocLink × Bool) :=
  let cleared := links.map (fun lb => (lb.1, false))
  match activeHeadingId heads with
  | none => cleared
  | some i => markFirst cleared i

/-- The heading resolution of `setupScrollSpy` (lines 414-420): each
link's heading looked up by `getElementById` (`resolves`), keeping the
resolved ones with their current bounding-rect tops. -/
def headsOf (links : List (TocLink × Bool)) (resolves : String → Bool)
    (topOf : String → Int) : List (String × Int) :=
  (links.filter (fun lb => resolves lb.1.hid)).map
    (fun lb => (lb.1.hid, topOf lb.1.hid))

/-- `setupScrollSpy` (lines 412-477) proper: return `none` (no listener,
no update, no document change) when no heading resolves, otherwise run
the initial `updateActiveLink` with the headings' current tops. -/
def setupScrollSpy (links : List (TocLink × Bool)) (resolves : String → Bool)
    (topOf : String → Int) : Option (List (TocLink × Bool)) :=
  let heads := headsOf links resolves topOf
  if heads.isEmpty then none
  else some (updateActiveLink links heads)

end OnThisPage

namespace FwSwitcher

/-- The line deleted by `stripMarkerLine`'s scan, characterised by index:
within the fuel window, non-blank, testing positive for the marker or
label pattern, and preceded only by blank lines and comment lines testing
negative for both patterns. -/
def stripTarget (cfg : Config) (n : Nat) (ls : List String) (i : Nat) : Prop :=
  i < n ∧ i < ls.length ∧ jsTrim (ls.getD i "") ≠ "" ∧
  (patTest cfg.markerPattern (ls.getD i "") = true ∨
    patTest cfg.labelPattern (ls.getD i "") = true) ∧
  ∀ j, j < i → (jsTrim (ls.getD j "") = "" ∨
    (patTest cfg.markerPattern (ls.getD j "") = false ∧
      patTest cfg.labelPattern (ls.getD j "") = false ∧
      isCommentStart (ls.getD j "") = true))

/-- The line on which `detectFramework`'s scan detects a comment-style
marker, characterised by index: within the fuel window, non-blank,
carrying a marker hit for `fw`, and preceded only by blank lines and
comment lines carrying neither a marker nor a label hit. -/
def markerTargetAt (cfg : Config) (n : Nat) (ls : List String) (i : Nat)
    (fw : String) : Prop :=
  i < n ∧ i < ls.length ∧ jsTrim (ls.getD i "") ≠ "" ∧
  markerHit cfg (ls.getD i "") = some fw ∧
  ∀ j, j < i → (jsTrim (ls.getD j "") = "" ∨
    (markerHit cfg (ls.getD j "") = none ∧ labelHit cfg (ls.getD j "") = none ∧
      isCommentStart (ls.getD j "") = true))

/-- Claim C4's detection condition as written: among the first
`maxLinesToCheck` lines and strictly before the first non-empty line that
does not begin with `//`, `#` or `<!--`, some line matches the marker
pattern with a captured name that normalises into `CONFIG.frameworks`. -/
def specC4Cond (cfg : Config) (content : String) : Bool :=
  let ls := splitLines content
  (List.range (min cfg.maxLinesToCheck ls.length)).any (fun i =>
    (markerHit cfg (ls.getD i "")).isSome &&
    (List.range (i + 1)).all (fun j =>
      jsTrim (ls.getD j "") = "" || isCommentStart (ls.getD j "")))

/-- A run of adjacent annotated code blocks, as in claim C1: each block is
fresh from the renderer (no dataset, no `fw-hidden`), detection (with the
block's actual previous sibling) yields a framework, and consecutive
blocks are separated only by elements `isAdjacentBlock` skips.  `prev` is
the element preceding the run's first block; the list collects the
detected framework of every block in order. -/
inductive AdjacentRun (cfg : Config) :
    Option Elem → CodeBlock → List (List Elem × CodeBlock) → List String → Prop
  | single (prev : Option Elem) (cb : CodeBlock) (fw : String)
      (hds : cb.datasetFramework = none)
      (hms : cb.datasetMarkerStripped = false)
      (hph : cb.preHidden = false)
      (hdet : (detectFramework cfg cb prev).1 = some fw) :
      AdjacentRun cfg prev cb [] [fw]
  | cons (prev : Option Elem) (cb : CodeBlock) (fw : String)
      (seps : List Elem) (cb' : CodeBlock)
      (rest : List (List Elem × CodeBlock)) (fws : List String)
      (hds : cb.datasetFramework = none)
      (hms : cb.datasetMarkerStripped = false)
      (hph : cb.preHidden = false)
      (hdet : (detectFramework cfg cb prev).1 = some fw)
      (hseps : ∀ e ∈ seps, skippable cfg e = true)
      (htail : AdjacentRun cfg (some (seps.getLastD (Elem.code cb))) cb' rest fws) :
      AdjacentRun cfg prev cb ((seps, cb') :: rest) (fw :: fws)

/-- The page consisting of exactly one run of code blocks with their
separators. -/
def runPage : CodeBlock → List (List Elem × CodeBlock) → List Elem
  | cb, [] => [Elem.code cb]
  | cb, (seps, cb') :: rest => Elem.code cb :: (seps ++ runPage cb' rest)

/-- A run block as it sits in the batch: detection cached its framework,
then the marker line was stripped. -/
def batchBlock (cfg : Config) (cb : CodeBlock) (fw : String) : CodeBlock :=
  stripMarkerLine cfg { cb with datasetFramework := some fw }

/-- The members `createGroupFromBatch` moves for a run, before initial
visibility: the processed blocks in order, interleaved with the label
paragraphs of the separators. -/
def rawMembers (cfg : Config) :
    CodeBlock → List (List Elem × CodeBlock) → List String → List GElem
  | cb, [], fw :: _ => [GElem.gpre (batchBlock cfg cb fw)]
  | cb, (seps, cb') :: rest, fw :: fws =>
    GElem.gpre (batchBlock cfg cb fw) :: seps.filterMap (labelOf cfg)
      ++ rawMembers cfg cb' rest fws
  | _, _, [] => []

/-- The separator elements of a run that `createGroupFromBatch` leaves in
place, in order. -/
def leftoversOf (cfg : Config) : List (List Elem × CodeBlock) → List Elem
  | [] => []
  | (seps, _) :: rest =>
    seps.filter (fun e => !isLabelPara cfg e) ++ leftoversOf cfg rest

/-- The number of `.fw-group` elements on a processed page. -/
def countGroups (page : List OutElem) : Nat :=
  page.countP (fun e => match e with
    | OutElem.ogroup _ _ => true
    | _ => false)

/-- The code blocks of a group member list. -/
def memberBlocks (members : List GElem) : List CodeBlock :=
  members.filterMap (fun g => match g with
    | GElem.gpre cb => some cb
    | _ => none)

/-- Claim C1's visibility condition as written: on the processed page,
every grouped code block whose detected framework differs from the
current framework carries `fw-hidden`. -/
def allNonCurrentHidden (cur : String) (page : List OutElem) : Bool :=
  page.all (fun e => match e with
    | OutElem.ogroup _ members =>
      (memberBlocks members).all (fun cb =>
        match cb.datasetFramework with
        | some fw => fw = cur || cb.preHidden
        | none => true)
    | _ => true)

/-- A demonstration marker pattern: the capture behaviour of a regexp like
the usual `// framework: name` comment marker, on the two lines the
demonstration pages use. -/
def demoMarker : CapturePat := fun s =>
  if s = "// framework: hono" then some "hono"
  else if s = "// framework: express" then some "express"
  else none

/-- A demonstration configuration with two frameworks and the comment
marker pattern. -/
def cfgDemo : Config :=
  { storageKey := "docsify-fw", frameworks := ["hono", "express"],
    defaultFramework := "", frameworkNames := [],
    markerPattern := some demoMarker, labelPattern := none,
    maxLinesToCheck := 5 }

/-- A marker pattern that also matches a bare (non-comment) first line,
as a user-configured regexp may. -/
def demoMarkerLoose : CapturePat := fun s =>
  if s = "framework: hono" then some "hono" else none

/-- A configuration whose marker pattern matches a non-comment line. -/
def cfgLoose : Config :=
  { storageKey := "docsify-fw", frameworks := ["hono"],
    defaultFramework := "hono", frameworkNames := [],
    markerPattern := some demoMarkerLoose, labelPattern := none,
    maxLinesToCheck := 5 }

/-- The two annotated demonstration blocks. -/
def demoBlockHono : CodeBlock :=
  { content := "// framework: hono\nconsoleA()" }

/-- The second demonstration block, annotated with the other framework. -/
def demoBlockExpress : CodeBlock :=
  { content := "// framework: express\nconsoleB()" }

/-- The demonstration page: two adjacent annotated blocks. -/
def demoPage : List Elem :=
  [Elem.code demoBlockHono, Elem.code demoBlockExpress]

/-- A local storage holding an unconfigured framework name under the
plugin's key. -/
def demoStorage : String → Option String := fun k =>
  if k = "docsify-fw" then some "zzz" else none

/-- Every grouped code block of a processed page carries a cached
detected framework. -/
def groupsTagged (out : List OutElem) : Prop :=
  ∀ sw members, OutElem.ogroup sw members ∈ out →
    ∀ cb ∈ memberBlocks members, cb.datasetFramework.isSome = true

/-- The invariant of `processPage`'s iteration: emitted groups and the
open batch hold only detected blocks. -/
def stateTagged (st : PState) : Prop :=
  groupsTagged st.out ∧
    ∀ cb ∈ memberBlocks st.batch, cb.datasetFramework.isSome = true

/-- The available frameworks of a batch whose detected tags are `fws`:
the configured frameworks, in configured order, among the tags. -/
def availOf (cfg : Config) (fws : List String) : List String :=
  cfg.frameworks.filter (fun fw => fws.contains fw)

/-- The initial visibility of one block that already carries a cached
framework: `fw-hidden` exactly when its framework is not the selected
one. -/
def visApply (selected : String) (cb : CodeBlock) : CodeBlock :=
  match cb.datasetFramework with
  | some fw => if fw = selected then cb else { cb with preHidden := true }
  | none => cb

/-- The initial-visibility pass on members whose blocks already carry a
cached framework: blocks of another framework get `fw-hidden`. -/
def applyVisCached (selected : String) (ms : List GElem) : List GElem :=
  ms.map (fun g => match g with
    | GElem.glabel t => GElem.glabel t
    | GElem.gpre cb => GElem.gpre (visApply selected cb))

/-- The precondition `processPage`'s iteration maintains for the batching
formula: pending elements are all skippable, and an empty batch carries
no bookkeeping. -/
def stateReady (cfg : Config) (st : PState) : Prop :=
  (∀ e ∈ st.pend, skippable cfg e = true) ∧
  (st.nblocks = 0 → st.batch = [] ∧ st.bfws = [] ∧ st.left = [] ∧ st.pend = [])

/-- The detection result of every code block of a member list, walked with
the same previous-sibling tracking all the passes use: each entry pairs
the original block with `detectFramework`'s result on it. -/
def detectPairs (cfg : Config) :
    Option Elem → List GElem → List (CodeBlock × (Option String × CodeBlock))
  | _, [] => []
  | _, GElem.glabel t :: rest => detectPairs cfg (some (Elem.para t)) rest
  | prev, GElem.gpre cb :: rest =>
    (cb, detectFramework cfg cb prev) :: detectPairs cfg (some (Elem.code cb)) rest

/-- The block produced by the matching pass of `updateGroupVisibility`
from one detection result. -/
def hideByCur (cur : String) (d : Option String × CodeBlock) : CodeBlock :=
  match d.1 with
  | some fw =>
    if fw = cur then { d.2 with preHidden := false }
    else { d.2 with preHidden := true }
  | none => d.2

end FwSwitcher

namespace OnThisPage

/-- Claim C6's description of the active section: the last heading in
document order whose bounding-rect top is at most 100, or the first
heading when none qualifies. -/
def specActiveHeading (heads : List (String × Int)) : Option String :=
  match (heads.filter (fun h => h.2 ≤ 100)).getLast? with
  | some h => some h.1
  | none => heads.head?.map (·.1)

/-- The failing input for claim C2: an `h2` directly followed by an
`h3`. -/
def demoHeadings : List Heading :=
  [{ level := 2, text := "Alpha", id := "alpha" },
   { level := 3, text := "Beta", id := "beta" }]

/-- Claim C5's description of a heading's slug: the existing id, or the
generated one. -/
def specC5Slug (h : Heading) : String :=
  if h.id = "" then headingSlug (jsTrim h.text) else h.id

/-- Claim C5's description of a heading's sidebar link: the permalink
`#/<path>?id=<slug>` carrying the trimmed text and the slug. -/
def specC5Link (route hash : String) (h : Heading) : TocLink :=
  { text := jsTrim h.text,
    href := String.append (String.append (String.append "#/"
      (docPath route hash)) "?id=") (specC5Slug h),
    hid := specC5Slug h }

/-- Claim C5's description of the generated links: one per non-`h1`
heading, in document order. -/
def specC5Links (route hash : String) (hs : List Heading) : List TocLink :=
  (hs.filter (fun h => h.level ≠ 1)).map (specC5Link route hash)

/-- Claim C5's description of the id assignment: a heading of level 2-6
without an id receives its slug; other headings are untouched. -/
def specC5Heading (h : Heading) : Heading :=
  if h.level = 1 then h
  else if h.id = "" then { h with id := specC5Slug h } else h

mutual
/-- The `data-heading-id`s reachable from a sidebar node, paired with the
nesting depth (the count of `ul`s strictly below the root list) at which
each link sits. -/
def nodeDepths : Nat → Node → List (String × Nat)
  | d, Node.li _ _ hid cs => (hid, d) :: nodeListDepths d cs
  | d, Node.ul cs => nodeListDepths (d + 1) cs

/-- Link depths over a list of sibling nodes. -/
def nodeListDepths : Nat → List Node → List (String × Nat)
  | _, [] => []
  | d, n :: rest => nodeDepths d n ++ nodeListDepths d rest
end

/-- Claim C2's expected nesting: each level-`N` heading's link exactly
`N - 2` list levels below the top-level list, in document order. -/
def specC2Depths (hs : List Heading) : List (String × Nat) :=
  (hs.filter (fun h => h.level ≠ 1)).map
    (fun h => (specC5Slug h, h.level - 2))

/-- A concrete sidebar link for the scroll-spy demonstrations. -/
def demoLinkA : TocLink :=
  { text := "Alpha", href := "#/guide?id=alpha", hid := "alpha" }

/-- A second concrete sidebar link. -/
def demoLinkB : TocLink :=
  { text := "Beta", href := "#/guide?id=beta", hid := "beta" }

/-- A concrete pair of sidebar links, both inactive. -/
def demoLinks : List (TocLink × Bool) := [(demoLinkA, false), (demoLinkB, false)]

/-- Concrete bounding-rect tops: the first heading within 100 pixels of
the viewport top, the second far below. -/
def demoTopOf : String → Int := fun h => if h = "alpha" then 10 else 200

/-- A resolver finding every heading element. -/
def demoResolve : String → Bool := fun _ => true

/-- A resolver finding no heading element. -/
def demoNoResolve : String → Bool := fun _ => false

/-- The scroll-spy result on the demonstration links: exactly the first
link active. -/
def demoOut : List (TocLink × Bool) := [(demoLinkA, true), (demoLinkB, false)]

/-- A concrete document without headings. -/
def demoDoc : Doc :=
  { headings := [], leftSidebar := some (some []), onThisPage := some ([], []) }

end OnThisPage

namespace FwSwitcher

theorem markerTargetAt_zero_iff (cfg : Config) (n : Nat) (line : String)
    (rest : List String) (fw : String) :
    markerTargetAt cfg (n + 1) (line :: rest) 0 fw ↔
      (jsTrim line ≠ "" ∧ markerHit cfg line = some fw) := by
  unfold markerTargetAt
  simp [List.getD_cons_zero]

theorem markerTargetAt_succ_iff (cfg : Config) (n : Nat) (line : String)
    (rest : List String) (i : Nat) (fw : String) :
    markerTargetAt cfg (n + 1) (line :: rest) (i + 1) fw ↔
      ((jsTrim line = "" ∨
        (markerHit cfg line = none ∧ labelHit cfg line = none ∧
          isCommentStart line = true)) ∧
        markerTargetAt cfg n rest i fw) := by
  unfold markerTargetAt
  constructor
  · rintro ⟨h1, h2, h3, h4, h5⟩
    have h0 := h5 0 (Nat.succ_pos i)
    simp only [List.getD_cons_zero] at h0
    refine ⟨h0, by omega, by simpa using h2, ?_, ?_, ?_⟩
    · simpa [List.getD_cons_succ] using h3
    · simpa [List.getD_cons_succ] using h4
    · intro j hj
      have := h5 (j + 1) (by omega)
      simpa [List.getD_cons_succ] using this
  · rintro ⟨h0, h1, h2, h3, h4, h5⟩
    refine ⟨by omega, by simpa using h2, ?_, ?_, ?_⟩
    · simpa [List.getD_cons_succ] using h3
    · simpa [List.getD_cons_succ] using h4
    · intro j hj
      match j, hj with
      | 0, _ => simpa [List.getD_cons_zero] using h0
      | j + 1, hj => simpa [List.getD_cons_succ] using h5 j (by omega)

theorem markerTargetAt_nil (cfg : Config) (n : Nat) (i : Nat) (fw : String) :
    ¬ markerTargetAt cfg n ([] : List String) i fw := by
  rintro ⟨_, h, _⟩
  simp at h

theorem markerTargetAt_fuel_zero (cfg : Config) (ls : List String) (i : Nat)
    (fw : String) : ¬ markerTargetAt cfg 0 ls i fw := by
  rintro ⟨h, _⟩
  omega

theorem scanLines_marker_iff (cfg : Config) (fw : String) :
    ∀ (n : Nat) (ls : List String),
      scanLines cfg n ls = some (fw, DetSrc.marker) ↔
        ∃ i, markerTargetAt cfg n ls i fw
  | 0, ls => by
    simp only [scanLines]
    constructor
    · intro h; exact absurd h (by simp)
    · rintro ⟨i, hi⟩; exact absurd hi (markerTargetAt_fuel_zero cfg ls i fw)
  | n + 1, [] => by
    simp only [scanLines]
    constructor
    · intro h; exact absurd h (by simp)
    · rintro ⟨i, hi⟩; exact absurd hi (markerTargetAt_nil cfg (n + 1) i fw)
  | n + 1, line :: rest => by
    by_cases hb : jsTrim line = ""
    · have hred : scanLines cfg (n + 1) (line :: rest) = scanLines cfg n rest := by
        simp [scanLines, hb]
      rw [hred, scanLines_marker_iff cfg fw n rest]
      constructor
      · rintro ⟨i, hi⟩
        exact ⟨i + 1, (markerTargetAt_succ_iff cfg n line rest i fw).mpr
          ⟨Or.inl hb, hi⟩⟩
      · rintro ⟨i, hi⟩
        match i with
        | 0 =>
          rw [markerTargetAt_zero_iff] at hi
          exact absurd hb hi.1
        | i + 1 =>
          rw [markerTargetAt_succ_iff] at hi
          exact ⟨i, hi.2⟩
    · cases hm : markerHit cfg line with
      | some fw2 =>
        have hred : scanLines cfg (n + 1) (line :: rest)
            = some (fw2, DetSrc.marker) := by
          simp [scanLines, hb, hm]
        rw [hred]
        constructor
        · intro h
          have hfw : fw2 = fw := by simpa using h
          exact ⟨0, (markerTargetAt_zero_iff cfg n line rest fw).mpr
            ⟨hb, by rw [hm, hfw]⟩⟩
        · rintro ⟨i, hi⟩
          match i with
          | 0 =>
            rw [markerTargetAt_zero_iff] at hi
            rw [hm] at hi
            have hfw : fw2 = fw := by simpa using hi.2
            rw [hfw]
          | i + 1 =>
            rw [markerTargetAt_succ_iff] at hi
            rcases hi.1 with h | h
            · exact absurd h hb
            · rw [hm] at h; exact absurd h.1 (by simp)
      | none =>
        cases hl : labelHit cfg line with
        | some fw2 =>
          have hred : scanLines cfg (n + 1) (line :: rest)
              = some (fw2, DetSrc.label) := by
            simp [scanLines, hb, hm, hl]
          rw [hred]
          constructor
          · intro h; exact absurd h (by simp)
          · rintro ⟨i, hi⟩
            match i with
            | 0 =>
              rw [markerTargetAt_zero_iff] at hi
              rw [hm] at hi
              exact absurd hi.2 (by simp)
            | i + 1 =>
              rw [markerTargetAt_succ_iff] at hi
              rcases hi.1 with h | h
              · exact absurd h hb
              · rw [hl] at h; exact absurd h.2.1 (by simp)
        | none =>
          by_cases hc : isCommentStart line
          · have hred : scanLines cfg (n + 1) (line :: rest)
                = scanLines cfg n rest := by
              simp [scanLines, hb, hm, hl, hc]
            rw [hred, scanLines_marker_iff cfg fw n rest]
            constructor
            · rintro ⟨i, hi⟩
              exact ⟨i + 1, (markerTargetAt_succ_iff cfg n line rest i fw).mpr
                ⟨Or.inr ⟨hm, hl, hc⟩, hi⟩⟩
            · rintro ⟨i, hi⟩
              match i with
              | 0 =>
                rw [markerTargetAt_zero_iff] at hi
                rw [hm] at hi
                exact absurd hi.2 (by simp)
              | i + 1 =>
                rw [markerTargetAt_succ_iff] at hi
                exact ⟨i, hi.2⟩
          · have hred : scanLines cfg (n + 1) (line :: rest) = none := by
              simp [scanLines, hb, hm, hl, hc]
            rw [hred]
            constructor
            · intro h; exact absurd h (by simp)
            · rintro ⟨i, hi⟩
              match i with
              | 0 =>
                rw [markerTargetAt_zero_iff] at hi
                rw [hm] at hi
                exact absurd hi.2 (by simp)
              | i + 1 =>
                rw [markerTargetAt_succ_iff] at hi
                rcases hi.1 with h | h
                · exact absurd h hb
                · exact absurd h.2.2 (by simpa using hc)

theorem stripTarget_zero_iff (cfg : Config) (n : Nat) (line : String)
    (rest : List String) :
    stripTarget cfg (n + 1) (line :: rest) 0 ↔
      (jsTrim line ≠ "" ∧ (patTest cfg.markerPattern line = true ∨
        patTest cfg.labelPattern line = true)) := by
  unfold stripTarget
  simp [List.getD_cons_zero]

theorem stripTarget_succ_iff (cfg : Config) (n : Nat) (line : String)
    (rest : List String) (i : Nat) :
    stripTarget cfg (n + 1) (line :: rest) (i + 1) ↔
      ((jsTrim line = "" ∨
        (patTest cfg.markerPattern line = false ∧
          patTest cfg.labelPattern line = false ∧
          isCommentStart line = true)) ∧
        stripTarget cfg n rest i) := by
  unfold stripTarget
  constructor
  · rintro ⟨h1, h2, h3, h4, h5⟩
    have h0 := h5 0 (Nat.succ_pos i)
    simp only [List.getD_cons_zero] at h0
    refine ⟨h0, by omega, by simpa using h2, ?_, ?_, ?_⟩
    · simpa [List.getD_cons_succ] using h3
    · simpa [List.getD_cons_succ] using h4
    · intro j hj
      have := h5 (j + 1) (by omega)
      simpa [List.getD_cons_succ] using this
  · rintro ⟨h0, h1, h2, h3, h4, h5⟩
    refine ⟨by omega, by simpa using h2, ?_, ?_, ?_⟩
    · simpa [List.getD_cons_succ] using h3
    · simpa [List.getD_cons_succ] using h4
    · intro j hj
      match j, hj with
      | 0, _ => simpa [List.getD_cons_zero] using h0
      | j + 1, hj => simpa [List.getD_cons_succ] using h5 j (by omega)

theorem stripTarget_nil (cfg : Config) (n : Nat) (i : Nat) :
    ¬ stripTarget cfg n ([] : List String) i := by
  rintro ⟨_, h, _⟩
  simp at h

theorem stripTarget_fuel_zero (cfg : Config) (ls : List String) (i : Nat) :
    ¬ stripTarget cfg 0 ls i := by
  rintro ⟨h, _⟩
  omega

theorem stripScan_some_iff (cfg : Config) :
    ∀ (n : Nat) (ls out : List String),
      stripScan cfg n ls = some out ↔
        ∃ i, stripTarget cfg n ls i ∧ out = ls.eraseIdx i
  | 0, ls, out => by
    simp only [stripScan]
    constructor
    · intro h; exact absurd h (by simp)
    · rintro ⟨i, hi, _⟩; exact absurd hi (stripTarget_fuel_zero cfg ls i)
  | n + 1, [], out => by
    simp only [stripScan]
    constructor
    · intro h; exact absurd h (by simp)
    · rintro ⟨i, hi, _⟩; exact absurd hi (stripTarget_nil cfg (n + 1) i)
  | n + 1, line :: rest, out => by
    by_cases hb : jsTrim line = ""
    · have hred : stripScan cfg (n + 1) (line :: rest)
          = (stripScan cfg n rest).map (line :: ·) := by
        simp [stripScan, hb]
      rw [hred]
      constructor
      · intro h
        rw [Option.map_eq_some'] at h
        obtain ⟨out2, h2, rfl⟩ := h
        obtain ⟨i, hi, rfl⟩ := (stripScan_some_iff cfg n rest out2).mp h2
        exact ⟨i + 1, (stripTarget_succ_iff cfg n line rest i).mpr
          ⟨Or.inl hb, hi⟩, by rw [List.eraseIdx_cons_succ]⟩
      · rintro ⟨i, hi, rfl⟩
        match i with
        | 0 =>
          rw [stripTarget_zero_iff] at hi
          exact absurd hb hi.1
        | i + 1 =>
          rw [stripTarget_succ_iff] at hi
          rw [Option.map_eq_some']
          exact ⟨rest.eraseIdx i,
            (stripScan_some_iff cfg n rest (rest.eraseIdx i)).mpr
              ⟨i, hi.2, rfl⟩, by rw [List.eraseIdx_cons_succ]⟩
    · by_cases hm : patTest cfg.markerPattern line = true
      · have hred : stripScan cfg (n + 1) (line :: rest) = some rest := by
          simp [stripScan, hb, hm]
        rw [hred]
        constructor
        · intro h
          refine ⟨0, (stripTarget_zero_iff cfg n line rest).mpr
            ⟨hb, Or.inl hm⟩, ?_⟩
          simpa [List.eraseIdx_cons_zero] using (Option.some.inj h).symm
        · rintro ⟨i, hi, rfl⟩
          match i with
          | 0 => simp [List.eraseIdx_cons_zero]
          | i + 1 =>
            rw [stripTarget_succ_iff] at hi
            rcases hi.1 with h | h
            · exact absurd h hb
            · rw [hm] at h
              exact absurd h.1 (by simp)
      · by_cases hl : patTest cfg.labelPattern line = true
        · have hred : stripScan cfg (n + 1) (line :: rest) = some rest := by
            simp [stripScan, hb, hm, hl]
          rw [hred]
          constructor
          · intro h
            refine ⟨0, (stripTarget_zero_iff cfg n line rest).mpr
              ⟨hb, Or.inr hl⟩, ?_⟩
            simpa [List.eraseIdx_cons_zero] using (Option.some.inj h).symm
          · rintro ⟨i, hi, rfl⟩
            match i with
            | 0 => simp [List.eraseIdx_cons_zero]
            | i + 1 =>
              rw [stripTarget_succ_iff] at hi
              rcases hi.1 with h | h
              · exact absurd h hb
              · rw [hl] at h
                exact absurd h.2.1 (by simp)
        · by_cases hc : isCommentStart line
          · have hred : stripScan cfg (n + 1) (line :: rest)
                = (stripScan cfg n rest).map (line :: ·) := by
              simp [stripScan, hb, hm, hl, hc]
            rw [hred]
            constructor
            · intro h
              rw [Option.map_eq_some'] at h
              obtain ⟨out2, h2, rfl⟩ := h
              obtain ⟨i, hi, rfl⟩ := (stripScan_some_iff cfg n rest out2).mp h2
              refine ⟨i + 1, (stripTarget_succ_iff cfg n line rest i).mpr
                ⟨Or.inr ⟨by simpa using hm, by simpa using hl, hc⟩, hi⟩, ?_⟩
              rw [List.eraseIdx_cons_succ]
            · rintro ⟨i, hi, rfl⟩
              match i with
              | 0 =>
                rw [stripTarget_zero_iff] at hi
                rcases hi.2 with h | h
                · exact absurd h hm
                · exact absurd h hl
              | i + 1 =>
                rw [stripTarget_succ_iff] at hi
                rw [Option.map_eq_some']
                exact ⟨rest.eraseIdx i,
                  (stripScan_some_iff cfg n rest (rest.eraseIdx i)).mpr
                    ⟨i, hi.2, rfl⟩, by rw [List.eraseIdx_cons_succ]⟩
          · have hred : stripScan cfg (n + 1) (line :: rest) = none := by
              simp [stripScan, hb, hm, hl, hc]
            rw [hred]
            constructor
            · intro h; exact absurd h (by simp)
            · rintro ⟨i, hi, rfl⟩
              match i with
              | 0 =>
                rw [stripTarget_zero_iff] at hi
                rcases hi.2 with h | h
                · exact absurd h hm
                · exact absurd h hl
              | i + 1 =>
                rw [stripTarget_succ_iff] at hi
                rcases hi.1 with h | h
                · exact absurd h hb
                · exact absurd h.2.2 (by simpa using hc)

theorem markerHit_mem (cfg : Config) (line fw : String)
    (h : markerHit cfg line = some fw) : fw ∈ cfg.frameworks := by
  unfold markerHit at h
  split at h
  · exact absurd h (by simp)
  · split at h
    · exact absurd h (by simp)
    · dsimp only at h
      split at h
      · next hmem =>
        obtain rfl := Option.some.inj h
        simpa using hmem
      · exact absurd h (by simp)

theorem labelHit_mem (cfg : Config) (line fw : String)
    (h : labelHit cfg line = some fw) : fw ∈ cfg.frameworks := by
  unfold labelHit at h
  split at h
  · exact absurd h (by simp)
  · split at h
    · exact absurd h (by simp)
    · dsimp only at h
      split at h
      · next hmem =>
        obtain rfl := Option.some.inj h
        simpa using hmem
      · exact absurd h (by simp)

theorem prevParaHit_mem (cfg : Config) (prev : Option Elem) (fw : String)
    (h : prevParaHit cfg prev = some fw) : fw ∈ cfg.frameworks := by
  unfold prevParaHit at h
  split at h
  · split at h
    · exact absurd h (by simp)
    · split at h
      · exact absurd h (by simp)
      · dsimp only at h
        split at h
        · next hmem =>
          obtain rfl := Option.some.inj h
          simpa using hmem
        · exact absurd h (by simp)
  · exact absurd h (by simp)

theorem scanLines_mem (cfg : Config) (fw : String) (src : DetSrc) :
    ∀ (n : Nat) (ls : List String),
      scanLines cfg n ls = some (fw, src) → fw ∈ cfg.frameworks
  | 0, ls => by simp [scanLines]
  | n + 1, [] => by simp [scanLines]
  | n + 1, line :: rest => by
    intro h
    rw [scanLines] at h
    by_cases hb : jsTrim line = ""
    · rw [if_pos hb] at h
      exact scanLines_mem cfg fw src n rest h
    · rw [if_neg hb] at h
      rcases hm : markerHit cfg line with _ | fw2 <;> simp only [hm] at h
      · rcases hl : labelHit cfg line with _ | fw2 <;> simp only [hl] at h
        · by_cases hc : isCommentStart line = true
          · rw [if_pos hc] at h
            exact scanLines_mem cfg fw src n rest h
          · rw [if_neg hc] at h
            simp at h
        · obtain ⟨rfl, rfl⟩ : fw2 = fw ∧ DetSrc.label = src := by
            simpa using h
          exact labelHit_mem cfg line _ hl
      · obtain ⟨rfl, rfl⟩ : fw2 = fw ∧ DetSrc.marker = src := by
          simpa using h
        exact markerHit_mem cfg line _ hm

theorem detectWithSrc_mem (cfg : Config) (cb : CodeBlock) (prev : Option Elem)
    (fw : String) (src : DetSrc)
    (h : detectWithSrc cfg cb prev = some (fw, src)) : fw ∈ cfg.frameworks := by
  unfold detectWithSrc at h
  rcases hs : scanLines cfg cfg.maxLinesToCheck (splitLines cb.content)
    with _ | r <;> simp only [hs] at h
  · rcases hp : prevParaHit cfg prev with _ | fw2 <;> simp only [hp] at h
    · rcases hf : cfg.frameworks.find? (fun fw => cb.classes.contains fw)
        with _ | fw2 <;> simp only [hf] at h
      · exact absurd h (by simp)
      · obtain ⟨rfl, rfl⟩ : fw2 = fw ∧ DetSrc.classAttr = src := by
          simpa using h
        exact List.mem_of_find?_eq_some hf
    · obtain ⟨rfl, rfl⟩ : fw2 = fw ∧ DetSrc.prevPara = src := by
        simpa using h
      exact prevParaHit_mem cfg prev _ hp
  · obtain rfl := Option.some.inj h
    exact scanLines_mem cfg fw src cfg.maxLinesToCheck (splitLines cb.content) hs

theorem detectWithSrc_only_content (cfg : Config) (cb cb2 : CodeBlock)
    (prev : Option Elem) (hcont : cb2.content = cb.content)
    (hcls : cb2.classes = cb.classes) :
    detectWithSrc cfg cb2 prev = detectWithSrc cfg cb prev := by
  unfold detectWithSrc
  rw [hcont, hcls]

theorem detectWithSrc_marker_iff (cfg : Config) (cb : CodeBlock)
    (prev : Option Elem) (fw : String) :
    detectWithSrc cfg cb prev = some (fw, DetSrc.marker) ↔
      ∃ i, markerTargetAt cfg cfg.maxLinesToCheck (splitLines cb.content) i fw := by
  rw [← scanLines_marker_iff cfg fw cfg.maxLinesToCheck (splitLines cb.content)]
  unfold detectWithSrc
  rcases hs : scanLines cfg cfg.maxLinesToCheck (splitLines cb.content)
    with _ | r
  · apply iff_of_false
    · intro h
      rcases hp : prevParaHit cfg prev with _ | fw2 <;> simp only [hp] at h
      · rcases hf : cfg.frameworks.find? (fun fw => cb.classes.contains fw)
          with _ | fw2 <;> simp only [hf] at h
        · exact absurd h (by simp)
        · exact absurd h (by simp)
      · exact absurd h (by simp)
    · simp
  · simp

theorem detectFramework_fresh (cfg : Config) (cb : CodeBlock)
    (prev : Option Elem) (h : cb.datasetFramework = none) :
    detectFramework cfg cb prev = detectStore cfg cb prev := by
  unfold detectFramework
  rw [h]

theorem detectFramework_cached (cfg : Config) (cb : CodeBlock)
    (prev : Option Elem) (fw : String) (h : cb.datasetFramework = some fw)
    (hne : fw ≠ "") : detectFramework cfg cb prev = (some fw, cb) := by
  unfold detectFramework
  simp only [h]
  rw [if_neg hne]

theorem detectStore_of_some (cfg : Config) (cb : CodeBlock) (prev : Option Elem)
    (fw : String) (src : DetSrc) (h : detectWithSrc cfg cb prev = some (fw, src)) :
    detectStore cfg cb prev = (some fw, { cb with datasetFramework := some fw }) := by
  unfold detectStore
  rw [h]

theorem detectStore_of_none (cfg : Config) (cb : CodeBlock) (prev : Option Elem)
    (h : detectWithSrc cfg cb prev = none) :
    detectStore cfg cb prev = (none, cb) := by
  unfold detectStore
  rw [h]

theorem detectStore_fst_mem (cfg : Config) (cb : CodeBlock) (prev : Option Elem)
    (fw : String) (h : (detectStore cfg cb prev).1 = some fw) :
    fw ∈ cfg.frameworks := by
  unfold detectStore at h
  rcases hd : detectWithSrc cfg cb prev with _ | r <;> simp only [hd] at h
  · exact absurd h (by simp)
  · obtain ⟨fw2, src⟩ := r
    obtain rfl : fw2 = fw := by simpa using h
    exact detectWithSrc_mem cfg cb prev _ src hd

theorem detectStore_snd_of_fst (cfg : Config) (cb : CodeBlock)
    (prev : Option Elem) (fw : String)
    (h : (detectStore cfg cb prev).1 = some fw) :
    (detectStore cfg cb prev).2 = { cb with datasetFramework := some fw } := by
  unfold detectStore at h ⊢
  rcases hd : detectWithSrc cfg cb prev with _ | r <;> simp only [hd] at h ⊢
  · exact absurd h (by simp)
  · obtain ⟨fw2, src⟩ := r
    obtain rfl : fw2 = fw := by simpa using h
    rfl

theorem detect_snd_isSome (cfg : Config) (cb : CodeBlock) (prev : Option Elem)
    (h : ((detectFramework cfg cb prev).1.isSome || cb.datasetFramework.isSome)
      = true) :
    (detectFramework cfg cb prev).2.datasetFramework.isSome = true := by
  unfold detectFramework at h ⊢
  rcases hds : cb.datasetFramework with _ | g <;> simp only [hds] at h ⊢
  · unfold detectStore at h ⊢
    rcases hd : detectWithSrc cfg cb prev with _ | r <;> simp only [hd] at h ⊢
    · simp [hds] at h
    · obtain ⟨fw2, src⟩ := r
      simp
  · by_cases hg : g = ""
    · rw [if_pos hg] at h ⊢
      unfold detectStore at h ⊢
      rcases hd : detectWithSrc cfg cb prev with _ | r <;> simp only [hd] at h ⊢
      · simp [hds]
      · obtain ⟨fw2, src⟩ := r
        simp
    · rw [if_neg hg] at h ⊢
      simp [hds]

theorem stripMarkerLine_datasetFramework (cfg : Config) (cb : CodeBlock) :
    (stripMarkerLine cfg cb).datasetFramework = cb.datasetFramework := by
  unfold stripMarkerLine
  split
  · rfl
  · split <;> rfl

theorem stripMarkerLine_classes (cfg : Config) (cb : CodeBlock) :
    (stripMarkerLine cfg cb).classes = cb.classes := by
  unfold stripMarkerLine
  split
  · rfl
  · split <;> rfl

theorem stripMarkerLine_preHidden (cfg : Config) (cb : CodeBlock) :
    (stripMarkerLine cfg cb).preHidden = cb.preHidden := by
  unfold stripMarkerLine
  split
  · rfl
  · split <;> rfl

/-- Claim C9 as corrected: when the element's `data-framework` is unset or
holds a plugin-written value (a nonempty member of `CONFIG.frameworks`),
`detectFramework` returns `null` (leaving the element unchanged) or a
member of `CONFIG.frameworks`; a non-null result is cached in
`dataset.framework`, and every later call on the cached element returns
the cached value regardless of its text content, class list, or previous
sibling. -/
theorem claim_C9_amended (cfg : Config) (cb : CodeBlock) (prev : Option Elem)
    (hnb : "" ∉ cfg.frameworks)
    (hds : cb.datasetFramework = none ∨
      ∃ g ∈ cfg.frameworks, g ≠ "" ∧ cb.datasetFramework = some g) :
    ((detectFramework cfg cb prev).1 = none ∧
      (detectFramework cfg cb prev).2 = cb) ∨
    (∃ fw ∈ cfg.frameworks,
      (detectFramework cfg cb prev).1 = some fw ∧
      (detectFramework cfg cb prev).2.datasetFramework = some fw ∧
      ∀ (content2 : String) (classes2 : List String) (prev2 : Option Elem),
        (detectFramework cfg
          { (detectFramework cfg cb prev).2 with
              content := content2, classes := classes2 } prev2).1 = some fw) := by
  rcases hds with hnone | ⟨g, hgmem, hgne, hsome⟩
  · rw [detectFramework_fresh cfg cb prev hnone]
    rcases hd : detectWithSrc cfg cb prev with _ | r
    · left
      rw [detectStore_of_none cfg cb prev hd]
      exact ⟨rfl, rfl⟩
    · obtain ⟨fw, src⟩ := r
      right
      have hmem := detectWithSrc_mem cfg cb prev fw src hd
      have hne : fw ≠ "" := fun hcontra => hnb (hcontra ▸ hmem)
      rw [detectStore_of_some cfg cb prev fw src hd]
      refine ⟨fw, hmem, rfl, rfl, ?_⟩
      intro content2 classes2 prev2
      rw [detectFramework_cached cfg _ prev2 fw (by simp) hne]
  · right
    rw [detectFramework_cached cfg cb prev g hsome hgne]
    refine ⟨g, hgmem, rfl, hsome, ?_⟩
    intro content2 classes2 prev2
    rw [detectFramework_cached cfg _ prev2 g (by simp [hsome]) hgne]

/-- Witness for the corrected claim C9 at a concrete configuration and a
fresh annotated block. -/
theorem claim_C9_witness :
    ((detectFramework cfgDemo demoBlockHono none).1 = none ∧
      (detectFramework cfgDemo demoBlockHono none).2 = demoBlockHono) ∨
    (∃ fw ∈ cfgDemo.frameworks,
      (detectFramework cfgDemo demoBlockHono none).1 = some fw ∧
      (detectFramework cfgDemo demoBlockHono none).2.datasetFramework = some fw ∧
      ∀ (content2 : String) (classes2 : List String) (prev2 : Option Elem),
        (detectFramework cfgDemo
          { (detectFramework cfgDemo demoBlockHono none).2 with
              content := content2, classes := classes2 } prev2).1 = some fw) :=
  claim_C9_amended cfgDemo demoBlockHono none (by decide) (Or.inl rfl)

/-- Counterexample to claim C9 as stated: with a `data-framework` value
the plugin never wrote, `detectFramework` returns a string that is not a
member of `CONFIG.frameworks`. -/
theorem claim_C9_counterexample :
    (detectFramework cfgDemo
      { content := "x", datasetFramework := some "zzz" } none).1 = some "zzz" ∧
    "zzz" ∉ cfgDemo.frameworks := by
  constructor
  · rfl
  · decide

/-- Claim C10: `stripMarkerLine` removes at most one line and is
idempotent.  On an unstripped element it sets `data-marker-stripped`,
leaves every other attribute alone, and either leaves the text unchanged
(exactly when no line qualifies) or deletes precisely the first qualifying
line — a line in the `maxLinesToCheck` window, non-blank, matching the
marker or label pattern, preceded only by blank lines and comment lines
matching neither; a later call on a stripped element returns it
unchanged. -/
theorem claim_C10 (cfg : Config) (cb : CodeBlock) :
    (cb.datasetMarkerStripped = true → stripMarkerLine cfg cb = cb) ∧
    (cb.datasetMarkerStripped = false →
      (stripMarkerLine cfg cb).datasetMarkerStripped = true ∧
      (stripMarkerLine cfg cb).datasetFramework = cb.datasetFramework ∧
      (stripMarkerLine cfg cb).classes = cb.classes ∧
      (stripMarkerLine cfg cb).preHidden = cb.preHidden ∧
      (((stripMarkerLine cfg cb).content = cb.content ∧
         ∀ i, ¬ stripTarget cfg cfg.maxLinesToCheck (splitLines cb.content) i) ∨
       (∃ i, stripTarget cfg cfg.maxLinesToCheck (splitLines cb.content) i ∧
         (stripMarkerLine cfg cb).content =
           String.intercalate "\n" ((splitLines cb.content).eraseIdx i)))) ∧
    stripMarkerLine cfg (stripMarkerLine cfg cb) = stripMarkerLine cfg cb := by
  rcases hms : cb.datasetMarkerStripped with _ | _
  · have hne : stripMarkerLine cfg cb = match
        stripScan cfg cfg.maxLinesToCheck (splitLines cb.content) with
      | some newLines =>
        { cb with content := String.intercalate "\n" newLines,
                  datasetMarkerStripped := true }
      | none => { cb with datasetMarkerStripped := true } := by
      unfold stripMarkerLine
      rw [hms]
      simp
    rcases hsc : stripScan cfg cfg.maxLinesToCheck (splitLines cb.content)
      with _ | out <;> rw [hsc] at hne
    · refine ⟨fun h => absurd h (by simp), fun _ => ?_, ?_⟩
      · rw [hne]
        refine ⟨rfl, rfl, rfl, rfl, Or.inl ⟨rfl, fun i hi => ?_⟩⟩
        have := (stripScan_some_iff cfg cfg.maxLinesToCheck
          (splitLines cb.content) ((splitLines cb.content).eraseIdx i)).mpr
          ⟨i, hi, rfl⟩
        rw [hsc] at this
        exact absurd this (by simp)
      · rw [hne]
        unfold stripMarkerLine
        simp
    · obtain ⟨i, hi, rfl⟩ := (stripScan_some_iff cfg cfg.maxLinesToCheck
        (splitLines cb.content) out).mp hsc
      refine ⟨fun h => absurd h (by simp), fun _ => ?_, ?_⟩
      · rw [hne]
        exact ⟨rfl, rfl, rfl, rfl, Or.inr ⟨i, hi, rfl⟩⟩
      · rw [hne]
        unfold stripMarkerLine
        simp
  · have heq : stripMarkerLine cfg cb = cb := by
      unfold stripMarkerLine
      rw [hms]
      simp
    refine ⟨fun _ => heq, fun h => absurd h (by simp), by rw [heq, heq]⟩

/-- Witness for claim C10 on a concrete annotated block: the first call
deletes the marker line and flags the element, the second call is the
identity. -/
theorem claim_C10_witness :
    (demoBlockHono.datasetMarkerStripped = true →
      stripMarkerLine cfgDemo demoBlockHono = demoBlockHono) ∧
    (demoBlockHono.datasetMarkerStripped = false →
      (stripMarkerLine cfgDemo demoBlockHono).datasetMarkerStripped = true ∧
      (stripMarkerLine cfgDemo demoBlockHono).datasetFramework
        = demoBlockHono.datasetFramework ∧
      (stripMarkerLine cfgDemo demoBlockHono).classes = demoBlockHono.classes ∧
      (stripMarkerLine cfgDemo demoBlockHono).preHidden
        = demoBlockHono.preHidden ∧
      (((stripMarkerLine cfgDemo demoBlockHono).content
          = demoBlockHono.content ∧
         ∀ i, ¬ stripTarget cfgDemo cfgDemo.maxLinesToCheck
           (splitLines demoBlockHono.content) i) ∨
       (∃ i, stripTarget cfgDemo cfgDemo.maxLinesToCheck
           (splitLines demoBlockHono.content) i ∧
         (stripMarkerLine cfgDemo demoBlockHono).content =
           String.intercalate "\n"
             ((splitLines demoBlockHono.content).eraseIdx i)))) ∧
    stripMarkerLine cfgDemo (stripMarkerLine cfgDemo demoBlockHono)
      = stripMarkerLine cfgDemo demoBlockHono :=
  claim_C10 cfgDemo demoBlockHono

theorem memberBlocks_nil : memberBlocks [] = [] := rfl

theorem memberBlocks_cons_gpre (cb : CodeBlock) (ms : List GElem) :
    memberBlocks (GElem.gpre cb :: ms) = cb :: memberBlocks ms := by
  simp [memberBlocks]

theorem memberBlocks_cons_glabel (t : String) (ms : List GElem) :
    memberBlocks (GElem.glabel t :: ms) = memberBlocks ms := by
  simp [memberBlocks]

theorem memberBlocks_append (a b : List GElem) :
    memberBlocks (a ++ b) = memberBlocks a ++ memberBlocks b := by
  simp [memberBlocks]

theorem memberBlocks_labels (cfg : Config) (l : List Elem) :
    memberBlocks (l.filterMap (labelOf cfg)) = [] := by
  induction l with
  | nil => rfl
  | cons e rest ih =>
    rcases e with cb | t | _
    · simpa [labelOf] using ih
    · by_cases hp : patTest cfg.labelPattern (jsTrim t) = true
      · simpa [labelOf, hp, memberBlocks_cons_glabel] using ih
      · simpa [labelOf, hp] using ih
    · simpa [labelOf] using ih

theorem detect_some_snd_isSome (cfg : Config) (cb : CodeBlock)
    (prev : Option Elem) (fw : String)
    (h : (detectFramework cfg cb prev).1 = some fw) :
    (detectFramework cfg cb prev).2.datasetFramework.isSome = true := by
  apply detect_snd_isSome
  rw [h]
  simp

theorem applyInitialVisibility_isSome (cfg : Config) (sel : String) :
    ∀ (ms : List GElem) (prev : Option Elem),
      (∀ cb ∈ memberBlocks ms, cb.datasetFramework.isSome = true) →
      ∀ cb ∈ memberBlocks (applyInitialVisibility cfg sel prev ms),
        cb.datasetFramework.isSome = true
  | [], _, _ => by simp [applyInitialVisibility, memberBlocks_nil]
  | GElem.glabel t :: rest, prev, h => by
    rw [applyInitialVisibility, memberBlocks_cons_glabel]
    rw [memberBlocks_cons_glabel] at h
    exact applyInitialVisibility_isSome cfg sel rest (some (Elem.para t)) h
  | GElem.gpre cb :: rest, prev, h => by
    have hmem0 : cb.datasetFramework.isSome = true :=
      h cb (by rw [memberBlocks_cons_gpre]; exact List.mem_cons_self cb _)
    have hsnd : (detectFramework cfg cb prev).2.datasetFramework.isSome
        = true := by
      apply detect_snd_isSome
      rw [hmem0]
      simp
    intro cb2 hcb2
    rw [applyInitialVisibility] at hcb2
    dsimp only at hcb2
    rw [memberBlocks_cons_gpre, List.mem_cons] at hcb2
    rcases hcb2 with rfl | hcb2
    · rcases hd : (detectFramework cfg cb prev).1 with _ | fw
      · simpa [hd] using hsnd
      · by_cases hsel : fw = sel
        · simpa [hd, hsel] using hsnd
        · simpa [hd, hsel] using hsnd
    · exact applyInitialVisibility_isSome cfg sel rest (some (Elem.code cb))
        (fun x hx => h x (by
          rw [memberBlocks_cons_gpre]
          exact List.mem_cons_of_mem _ hx)) cb2 hcb2

theorem no_group_in_gElemToOut (sw : List Button) (members : List GElem)
    (l : List GElem) : OutElem.ogroup sw members ∉ l.map gElemToOut := by
  intro h
  rw [List.mem_map] at h
  obtain ⟨g, _, hg⟩ := h
  rcases g with cb | t <;> simp [gElemToOut] at hg

theorem no_group_in_elemToOut (sw : List Button) (members : List GElem)
    (l : List Elem) : OutElem.ogroup sw members ∉ l.map elemToOut := by
  intro h
  rw [List.mem_map] at h
  obtain ⟨e, _, he⟩ := h
  rcases e with cb | t | _ <;> simp [elemToOut] at he

theorem closeBatch_tagged (cfg : Config) (cur : String) (st : PState)
    (h : stateTagged st) : stateTagged (closeBatch cfg cur st) := by
  obtain ⟨hout, hbatch⟩ := h
  unfold closeBatch
  split
  · refine ⟨?_, by simp [memberBlocks_nil]⟩
    intro sw members hmem cb hcb
    simp only [List.append_assoc, List.mem_append] at hmem
    rcases hmem with hmem | hmem | hmem | hmem
    · exact hout sw members hmem cb hcb
    · exact absurd hmem (no_group_in_gElemToOut sw members st.batch)
    · exact absurd hmem (no_group_in_elemToOut sw members st.left)
    · exact absurd hmem (no_group_in_elemToOut sw members st.pend)
  · refine ⟨?_, by simp [memberBlocks_nil]⟩
    intro sw members hmem cb hcb
    simp only [List.append_assoc, List.mem_append, List.mem_cons,
      List.not_mem_nil, or_false] at hmem
    rcases hmem with hmem | hmem | hmem | hmem
    · exact hout sw members hmem cb hcb
    · obtain ⟨-, hm⟩ := OutElem.ogroup.inj hmem
      subst hm
      exact applyInitialVisibility_isSome cfg _ st.batch (some Elem.other)
        hbatch cb hcb
    · exact absurd hmem (no_group_in_elemToOut sw members st.left)
    · exact absurd hmem (no_group_in_elemToOut sw members st.pend)

theorem step_tagged (cfg : Config) (cur : String) (st : PState)
    (prev : Option Elem) (e : Elem) (h : stateTagged st) :
    stateTagged (step cfg cur st prev e) := by
  obtain ⟨hout, hbatch⟩ := h
  rcases e with cb | t | _
  · rw [step]
    rcases hd : (detectFramework cfg cb prev).1 with _ | fw
    · simp only
      obtain ⟨hout2, hbatch2⟩ := closeBatch_tagged cfg cur st ⟨hout, hbatch⟩
      refine ⟨?_, hbatch2⟩
      intro sw members hmem cb2 hcb2
      rw [List.mem_append] at hmem
      rcases hmem with hmem | hmem
      · exact hout2 sw members hmem cb2 hcb2
      · rw [List.mem_singleton] at hmem
        exact absurd hmem (by simp)
    · simp only
      have hcb2 : (stripMarkerLine cfg
          (detectFramework cfg cb prev).2).datasetFramework.isSome = true := by
        rw [stripMarkerLine_datasetFramework]
        exact detect_some_snd_isSome cfg cb prev fw hd
      split
      · refine ⟨hout, ?_⟩
        rw [memberBlocks_append]
        intro x hx
        rw [List.mem_append] at hx
        rcases hx with hx | hx
        · exact hbatch x hx
        · rw [memberBlocks_cons_gpre, memberBlocks_nil] at hx
          rw [List.mem_singleton] at hx
          subst hx
          exact hcb2
      · split
        · refine ⟨hout, ?_⟩
          rw [List.append_assoc, memberBlocks_append]
          intro x hx
          rw [List.mem_append] at hx
          rcases hx with hx | hx
          · exact hbatch x hx
          · rw [memberBlocks_append, memberBlocks_labels,
              memberBlocks_cons_gpre, memberBlocks_nil] at hx
            rw [List.nil_append, List.mem_singleton] at hx
            subst hx
            exact hcb2
        · obtain ⟨hout2, _⟩ := closeBatch_tagged cfg cur st ⟨hout, hbatch⟩
          refine ⟨hout2, ?_⟩
          intro x hx
          rw [memberBlocks_cons_gpre, memberBlocks_nil] at hx
          rw [List.mem_singleton] at hx
          subst hx
          exact hcb2
  · have hstep : step cfg cur st prev (Elem.para t) =
        if st.nblocks = 0 then
          { st with out := st.out ++ [elemToOut (Elem.para t)] }
        else { st with pend := st.pend ++ [Elem.para t] } := rfl
    rw [hstep]
    split
    · refine ⟨?_, hbatch⟩
      intro sw members hmem cb2 hcb2
      rw [List.mem_append] at hmem
      rcases hmem with hmem | hmem
      · exact hout sw members hmem cb2 hcb2
      · simp [elemToOut] at hmem
    · exact ⟨hout, hbatch⟩
  · have hstep : step cfg cur st prev Elem.other =
        if st.nblocks = 0 then
          { st with out := st.out ++ [elemToOut Elem.other] }
        else { st with pend := st.pend ++ [Elem.other] } := rfl
    rw [hstep]
    split
    · refine ⟨?_, hbatch⟩
      intro sw members hmem cb2 hcb2
      rw [List.mem_append] at hmem
      rcases hmem with hmem | hmem
      · exact hout sw members hmem cb2 hcb2
      · simp [elemToOut] at hmem
    · exact ⟨hout, hbatch⟩

theorem runElems_tagged (cfg : Config) (cur : String) :
    ∀ (page : List Elem) (st : PState) (prev : Option Elem),
      stateTagged st → stateTagged (runElems cfg cur st prev page)
  | [], _, _, h => h
  | e :: es, st, prev, h =>
    runElems_tagged cfg cur es (step cfg cur st prev e) (some e)
      (step_tagged cfg cur st prev e h)

theorem processPage_tagged (cfg : Config) (cur : String) (page : List Elem) :
    groupsTagged (processPage cfg cur page) := by
  unfold processPage
  have h0 : stateTagged {} := by
    constructor
    · intro sw members hmem
      exact absurd hmem (by simp)
    · simp [memberBlocks_nil]
  exact (closeBatch_tagged cfg cur _
    (runElems_tagged cfg cur page {} none h0)).1

/-- Claim C4 as corrected.  A block is assigned a framework from a
comment-style annotation exactly when, among its first `maxLinesToCheck`
lines, some non-blank line matches the marker pattern with a captured
name that (lowercased, whitespace removed) is in `CONFIG.frameworks`,
every earlier line being blank or a comment line (`//`, `#`, `<!--`)
carrying neither a valid marker nor a valid label hit — in particular the
match may sit on the first non-comment line itself, whose pattern checks
run before the scan stops.  The line `stripMarkerLine` then removes is
the first window line on which the marker or label pattern merely tests
positive (preceded only by blanks and non-matching comment lines).
Grouped blocks are exactly ones with a detected framework: every code
block `processPage` puts into a group carries a cached detection. -/
theorem claim_C4_amended (cfg : Config) :
    (∀ (cb : CodeBlock) (prev : Option Elem) (fw : String),
      detectWithSrc cfg cb prev = some (fw, DetSrc.marker) ↔
        ∃ i, markerTargetAt cfg cfg.maxLinesToCheck
          (splitLines cb.content) i fw) ∧
    (∀ (cb : CodeBlock) (i : Nat), cb.datasetMarkerStripped = false →
      stripTarget cfg cfg.maxLinesToCheck (splitLines cb.content) i →
      (stripMarkerLine cfg cb).content =
        String.intercalate "\n" ((splitLines cb.content).eraseIdx i)) ∧
    (∀ (cur : String) (page : List Elem),
      groupsTagged (processPage cfg cur page)) := by
  refine ⟨fun cb prev fw => detectWithSrc_marker_iff cfg cb prev fw,
    fun cb i hms hi => ?_, fun cur page => processPage_tagged cfg cur page⟩
  have hsc : stripScan cfg cfg.maxLinesToCheck (splitLines cb.content)
      = some ((splitLines cb.content).eraseIdx i) :=
    (stripScan_some_iff cfg cfg.maxLinesToCheck (splitLines cb.content)
      ((splitLines cb.content).eraseIdx i)).mpr ⟨i, hi, rfl⟩
  simp [stripMarkerLine, hms, hsc]

/-- Counterexample to claim C4 as stated: when the configured marker
pattern matches the block's first line and that line is not
comment-styled, the code still assigns the framework from the marker,
while the claim's condition — a match strictly before the first non-empty
non-comment line — fails. -/
theorem claim_C4_counterexample :
    detectWithSrc cfgLoose { content := "framework: hono\nrun()" } none
      = some ("hono", DetSrc.marker) ∧
    specC4Cond cfgLoose "framework: hono\nrun()" = false := by
  constructor
  · rfl
  · rfl

/-- Witness for the corrected claim C4 at the demonstration
configuration: the marker characterisation at the annotated block, the
strip of its first line, and the detection invariant of the grouped
demonstration page. -/
theorem claim_C4_witness :
    ((detectWithSrc cfgDemo demoBlockHono none
        = some ("hono", DetSrc.marker) ↔
      ∃ i, markerTargetAt cfgDemo cfgDemo.maxLinesToCheck
        (splitLines demoBlockHono.content) i "hono") ∧
     (stripMarkerLine cfgDemo demoBlockHono).content =
       String.intercalate "\n"
         ((splitLines demoBlockHono.content).eraseIdx 0)) ∧
    groupsTagged (processPage cfgDemo "hono" demoPage) :=
  ⟨⟨(claim_C4_amended cfgDemo).1 demoBlockHono none "hono",
    (claim_C4_amended cfgDemo).2.1 demoBlockHono 0 rfl
      (by
        refine ⟨by decide, by decide, by decide, Or.inl (by decide), ?_⟩
        intro j hj
        omega)⟩,
   (claim_C4_amended cfgDemo).2.2 "hono" demoPage⟩

/-- Claim C3 as corrected.  `setFramework(f)` for `f` different from the
current selection sets the module state, writes `f` under
`CONFIG.storageKey`, and then refreshes group visibility and the
switchers; no plugin operation writes any local-storage key other than
`CONFIG.storageKey` (module startup writes nothing, `hook.init` and
`setFramework` write only that key); and the value persisted under the
key is used as the current selection at startup provided it is non-empty
and a member of `CONFIG.frameworks` (otherwise the selection falls back
to `CONFIG.defaultFramework`). -/
theorem claim_C3_amended :
    (∀ (cfg : Config) (st : SwState) (page : List OutElem) (fw : String),
      fw ≠ st.current →
      (setFramework cfg st page fw).1.current = fw ∧
      (setFramework cfg st page fw).1.storage cfg.storageKey = some fw ∧
      (∀ k, k ≠ cfg.storageKey →
        (setFramework cfg st page fw).1.storage k = st.storage k) ∧
      (setFramework cfg st page fw).2 =
        updateAllSwitchers cfg fw (updateAllGroups cfg fw page)) ∧
    (∀ (cfg : Config) (st : SwState) (k : String), k ≠ cfg.storageKey →
      (hookInit cfg st).storage k = st.storage k) ∧
    (∀ (cfg : Config) (storage : String → Option String),
      (pluginStartup cfg storage).storage = storage) ∧
    (∀ (cfg : Config) (storage : String → Option String) (v : String),
      storage cfg.storageKey = some v → v ≠ "" → v ∈ cfg.frameworks →
      (hookInit cfg (pluginStartup cfg storage)).current = v) := by
  refine ⟨?_, ?_, ?_, ?_⟩
  · intro cfg st page fw hne
    rw [setFramework, if_neg (fun h => hne h.symm)]
    refine ⟨rfl, by simp [setItem], fun k hk => by simp [setItem, hk], rfl⟩
  · intro cfg st k hk
    rw [hookInit]
    split
    · rfl
    · simp [setItem, hk]
  · intro cfg storage
    rfl
  · intro cfg storage v hv hne hmem
    have hcur : (pluginStartup cfg storage).current = v := by
      rw [pluginStartup]
      simp only [hv]
      rw [if_neg hne]
    rw [hookInit]
    split
    · exact hcur
    · next hcontra =>
      rw [hcur] at hcontra
      exact absurd (by simpa using hmem) hcontra

/-- Counterexample to claim C3 as stated: a persisted value that is not a
configured framework is not used as the current selection — `hook.init`
replaces it with the default. -/
theorem claim_C3_counterexample :
    demoStorage cfgDemo.storageKey = some "zzz" ∧
    (hookInit cfgDemo (pluginStartup cfgDemo demoStorage)).current ≠ "zzz" := by
  constructor
  · rfl
  · decide

/-- Witness for the corrected claim C3: a concrete `setFramework` call and
a startup from a valid persisted value. -/
theorem claim_C3_witness :
    ((setFramework cfgDemo ⟨"hono", demoStorage⟩ [] "express").1.current
        = "express" ∧
      (setFramework cfgDemo ⟨"hono", demoStorage⟩ [] "express").1.storage
        cfgDemo.storageKey = some "express" ∧
      (∀ k, k ≠ cfgDemo.storageKey →
        (setFramework cfgDemo ⟨"hono", demoStorage⟩ [] "express").1.storage k
          = demoStorage k) ∧
      (setFramework cfgDemo ⟨"hono", demoStorage⟩ [] "express").2 =
        updateAllSwitchers cfgDemo "express"
          (updateAllGroups cfgDemo "express" [])) ∧
    (hookInit cfgDemo (pluginStartup cfgDemo
      (setItem demoStorage "docsify-fw" "hono"))).current = "hono" :=
  ⟨claim_C3_amended.1 cfgDemo ⟨"hono", demoStorage⟩ [] "express" (by decide),
   claim_C3_amended.2.2.2 cfgDemo (setItem demoStorage "docsify-fw" "hono")
     "hono" (by decide) (by decide) (by decide)⟩

theorem detect_snd_content (cfg : Config) (cb : CodeBlock) (prev : Option Elem) :
    (detectFramework cfg cb prev).2.content = cb.content ∧
    (detectFramework cfg cb prev).2.classes = cb.classes := by
  unfold detectFramework
  split
  · split
    · unfold detectStore
      split <;> exact ⟨rfl, rfl⟩
    · exact ⟨rfl, rfl⟩
  · unfold detectStore
    split <;> exact ⟨rfl, rfl⟩

theorem detect_none_snd (cfg : Config) (cb : CodeBlock) (prev : Option Elem)
    (h : (detectFramework cfg cb prev).1 = none) :
    (detectFramework cfg cb prev).2 = cb := by
  rcases hds : cb.datasetFramework with _ | g
  · rw [detectFramework_fresh cfg cb prev hds] at h ⊢
    rcases hd : detectWithSrc cfg cb prev with _ | ⟨fw, src⟩
    · rw [detectStore_of_none cfg cb prev hd]
    · rw [detectStore_of_some cfg cb prev fw src hd] at h
      exact absurd h (by simp)
  · by_cases hg : g = ""
    · have hst : detectFramework cfg cb prev = detectStore cfg cb prev := by
        unfold detectFramework
        simp only [hds]
        rw [if_pos hg]
      rw [hst] at h ⊢
      rcases hd : detectWithSrc cfg cb prev with _ | ⟨fw, src⟩
      · rw [detectStore_of_none cfg cb prev hd]
      · rw [detectStore_of_some cfg cb prev fw src hd] at h
        exact absurd h (by simp)
    · rw [detectFramework_cached cfg cb prev g hds hg] at h
      exact absurd h (by simp)

theorem detect_fst_some_dataset (cfg : Config) (cb : CodeBlock)
    (prev : Option Elem) (fw : String)
    (h : (detectFramework cfg cb prev).1 = some fw) :
    (detectFramework cfg cb prev).2.datasetFramework = some fw := by
  rcases hds : cb.datasetFramework with _ | g
  · rw [detectFramework_fresh cfg cb prev hds] at h ⊢
    rcases hd : detectWithSrc cfg cb prev with _ | ⟨fw2, src⟩
    · rw [detectStore_of_none cfg cb prev hd] at h
      exact absurd h (by simp)
    · rw [detectStore_of_some cfg cb prev fw2 src hd] at h ⊢
      obtain rfl : fw2 = fw := by simpa using h
      rfl
  · by_cases hg : g = ""
    · have hst : detectFramework cfg cb prev = detectStore cfg cb prev := by
        unfold detectFramework
        simp only [hds]
        rw [if_pos hg]
      rw [hst] at h ⊢
      rcases hd : detectWithSrc cfg cb prev with _ | ⟨fw2, src⟩
      · rw [detectStore_of_none cfg cb prev hd] at h
        exact absurd h (by simp)
      · rw [detectStore_of_some cfg cb prev fw2 src hd] at h ⊢
        obtain rfl : fw2 = fw := by simpa using h
        rfl
    · rw [detectFramework_cached cfg cb prev g hds hg] at h ⊢
      obtain rfl : g = fw := by simpa using h
      simpa using hds

theorem prevParaHit_code (cfg : Config) (cb : CodeBlock) :
    prevParaHit cfg (some (Elem.code cb)) = none := rfl

theorem detectWithSrc_congr2 (cfg : Config) (cb cb2 : CodeBlock)
    (prev prev2 : Option Elem) (hcont : cb2.content = cb.content)
    (hcls : cb2.classes = cb.classes)
    (hprev : prevParaHit cfg prev2 = prevParaHit cfg prev) :
    detectWithSrc cfg cb2 prev2 = detectWithSrc cfg cb prev := by
  unfold detectWithSrc
  rw [hcont, hcls, hprev]

theorem detect_fst_stable (cfg : Config) (cb cb2 : CodeBlock)
    (prev prev2 : Option Elem)
    (hprev : prevParaHit cfg prev2 = prevParaHit cfg prev)
    (hcont : cb2.content = cb.content) (hcls : cb2.classes = cb.classes)
    (hds : cb2.datasetFramework
      = (detectFramework cfg cb prev).2.datasetFramework) :
    (detectFramework cfg cb2 prev2).1 = (detectFramework cfg cb prev).1 := by
  have hW : detectWithSrc cfg cb2 prev2 = detectWithSrc cfg cb prev :=
    detectWithSrc_congr2 cfg cb cb2 prev prev2 hcont hcls hprev
  rcases hd0 : cb.datasetFramework with _ | g
  · rw [detectFramework_fresh cfg cb prev hd0] at hds ⊢
    rcases hdw : detectWithSrc cfg cb prev with _ | r
    · rw [detectStore_of_none cfg cb prev hdw] at hds ⊢
      rw [detectFramework_fresh cfg cb2 prev2 (by rw [hds, hd0])]
      rw [detectStore_of_none cfg cb2 prev2 (by rw [hW, hdw])]
    · obtain ⟨fw, src⟩ := r
      rw [detectStore_of_some cfg cb prev fw src hdw] at hds ⊢
      simp only at hds
      by_cases hfw : fw = ""
      · have h2 : detectFramework cfg cb2 prev2 = detectStore cfg cb2 prev2 := by
          unfold detectFramework
          simp only [hds]
          rw [if_pos hfw]
        rw [h2, detectStore_of_some cfg cb2 prev2 fw src (by rw [hW, hdw])]
      · rw [detectFramework_cached cfg cb2 prev2 fw hds hfw]
  · by_cases hg : g = ""
    · have hcbstore : detectFramework cfg cb prev = detectStore cfg cb prev := by
        unfold detectFramework
        simp only [hd0]
        rw [if_pos hg]
      rw [hcbstore] at hds ⊢
      rcases hdw : detectWithSrc cfg cb prev with _ | r
      · rw [detectStore_of_none cfg cb prev hdw] at hds ⊢
        have h2 : detectFramework cfg cb2 prev2 = detectStore cfg cb2 prev2 := by
          unfold detectFramework
          simp only [hds, hd0]
          rw [if_pos hg]
        rw [h2, detectStore_of_none cfg cb2 prev2 (by rw [hW, hdw])]
      · obtain ⟨fw, src⟩ := r
        rw [detectStore_of_some cfg cb prev fw src hdw] at hds ⊢
        simp only at hds
        by_cases hfw : fw = ""
        · have h2 : detectFramework cfg cb2 prev2 = detectStore cfg cb2 prev2 := by
            unfold detectFramework
            simp only [hds]
            rw [if_pos hfw]
          rw [h2, detectStore_of_some cfg cb2 prev2 fw src (by rw [hW, hdw])]
        · rw [detectFramework_cached cfg cb2 prev2 fw hds hfw]
    · rw [detectFramework_cached cfg cb prev g hd0 hg] at hds ⊢
      simp only [hd0] at hds
      rw [detectFramework_cached cfg cb2 prev2 g hds hg]

theorem ugvPass1_blocks (cfg : Config) (cur : String) :
    ∀ (ms : List GElem) (prev : Option Elem),
      memberBlocks (ugvPass1 cfg cur prev ms).1
        = (detectPairs cfg prev ms).map (fun p => hideByCur cur p.2)
  | [], _ => by simp [ugvPass1, detectPairs, memberBlocks]
  | GElem.glabel t :: rest, prev => by
    rw [ugvPass1, detectPairs]
    dsimp only
    rw [memberBlocks_cons_glabel]
    exact ugvPass1_blocks cfg cur rest (some (Elem.para t))
  | GElem.gpre cb :: rest, prev => by
    rw [ugvPass1, detectPairs]
    dsimp only
    rw [memberBlocks_cons_gpre, List.map_cons]
    have ih := ugvPass1_blocks cfg cur rest (some (Elem.code cb))
    rw [ih]
    congr 1

theorem ugvPass1_flag (cfg : Config) (cur : String) :
    ∀ (ms : List GElem) (prev : Option Elem),
      (ugvPass1 cfg cur prev ms).2
        = (detectPairs cfg prev ms).any (fun p => p.2.1 = some cur)
  | [], _ => by simp [ugvPass1, detectPairs]
  | GElem.glabel t :: rest, prev => by
    rw [ugvPass1, detectPairs]
    dsimp only
    exact ugvPass1_flag cfg cur rest (some (Elem.para t))
  | GElem.gpre cb :: rest, prev => by
    rw [ugvPass1, detectPairs]
    dsimp only
    rw [List.any_cons]
    have ih := ugvPass1_flag cfg cur rest (some (Elem.code cb))
    rw [ih]
    congr 1
    rcases hd : (detectFramework cfg cb prev).1 with _ | fw <;> simp [hd]

theorem collectFws_pairs (cfg : Config) :
    ∀ (ms : List GElem) (prev : Option Elem),
      collectFws cfg prev ms = (detectPairs cfg prev ms).filterMap (fun p => p.2.1)
  | [], _ => by simp [collectFws, detectPairs]
  | GElem.glabel t :: rest, prev => by
    rw [collectFws, detectPairs]
    exact collectFws_pairs cfg rest (some (Elem.para t))
  | GElem.gpre cb :: rest, prev => by
    rw [collectFws, detectPairs, List.filterMap_cons]
    have ih := collectFws_pairs cfg rest (some (Elem.code cb))
    rcases hd : (detectFramework cfg cb prev).1 with _ | fw <;> simp only [hd]
    · exact ih
    · rw [ih]

theorem ugvPass2_blocks (cfg : Config) (first : String) :
    ∀ (ms : List GElem) (prev : Option Elem),
      memberBlocks (ugvPass2 cfg first prev ms)
        = (detectPairs cfg prev ms).map (fun p =>
            if p.2.1 = some first then { p.2.2 with preHidden := false }
            else p.2.2)
  | [], _ => by simp [ugvPass2, detectPairs, memberBlocks]
  | GElem.glabel t :: rest, prev => by
    rw [ugvPass2, detectPairs]
    dsimp only
    rw [memberBlocks_cons_glabel]
    exact ugvPass2_blocks cfg first rest (some (Elem.para t))
  | GElem.gpre cb :: rest, prev => by
    rw [ugvPass2, detectPairs]
    dsimp only
    rw [memberBlocks_cons_gpre, List.map_cons]
    have ih := ugvPass2_blocks cfg first rest (some (Elem.code cb))
    rw [ih]

theorem detectPairs_fst_stable (cfg : Config) (cur : String) :
    ∀ (ms : List GElem) (prev prev2 : Option Elem),
      prevParaHit cfg prev2 = prevParaHit cfg prev →
      (detectPairs cfg prev2 (ugvPass1 cfg cur prev ms).1).map (fun p => p.2.1)
        = (detectPairs cfg prev ms).map (fun p => p.2.1)
  | [], _, _, _ => by simp [ugvPass1, detectPairs]
  | GElem.glabel t :: rest, prev, prev2, hprev => by
    rw [ugvPass1]
    dsimp only
    rw [detectPairs, detectPairs]
    exact detectPairs_fst_stable cfg cur rest (some (Elem.para t))
      (some (Elem.para t)) rfl
  | GElem.gpre cb :: rest, prev, prev2, hprev => by
    rw [ugvPass1]
    dsimp only
    rw [detectPairs, detectPairs, List.map_cons, List.map_cons]
    have hfields := detect_snd_content cfg cb prev
    congr 1
    · apply detect_fst_stable cfg cb _ prev prev2 hprev
      · rcases hd : (detectFramework cfg cb prev).1 with _ | fw
        · simp only [hd]
          exact hfields.1
        · simp only [hd]
          by_cases hc : fw = cur <;> simp [hc, hfields.1]
      · rcases hd : (detectFramework cfg cb prev).1 with _ | fw
        · simp only [hd]
          exact hfields.2
        · simp only [hd]
          by_cases hc : fw = cur <;> simp [hc, hfields.2]
      · rcases hd : (detectFramework cfg cb prev).1 with _ | fw
        · simp only [hd]
        · simp only [hd]
          by_cases hc : fw = cur <;> simp [hc]
    · exact detectPairs_fst_stable cfg cur rest (some (Elem.code cb))
        (some (Elem.code _)) (by rw [prevParaHit_code, prevParaHit_code])

theorem hasCodeBlock_iff (ms : List GElem) :
    hasCodeBlock ms = !(memberBlocks ms).isEmpty := by
  induction ms with
  | nil => rfl
  | cons g rest ih =>
    rcases g with cb | t
    · simp [hasCodeBlock, memberBlocks_cons_gpre]
    · simp only [hasCodeBlock, List.any_cons, memberBlocks_cons_glabel]
      simpa [hasCodeBlock] using ih

theorem detectPairs_mem_shape (cfg : Config) :
    ∀ (ms : List GElem) (prev : Option Elem)
      (q : CodeBlock × (Option String × CodeBlock)),
      q ∈ detectPairs cfg prev ms → ∃ pv, q.2 = detectFramework cfg q.1 pv
  | [], _, q => by simp [detectPairs]
  | GElem.glabel t :: rest, prev, q => by
    rw [detectPairs]
    exact detectPairs_mem_shape cfg rest (some (Elem.para t)) q
  | GElem.gpre cb :: rest, prev, q => by
    rw [detectPairs]
    intro hq
    rcases List.mem_cons.mp hq with rfl | hq
    · exact ⟨prev, rfl⟩
    · exact detectPairs_mem_shape cfg rest (some (Elem.code cb)) q hq

theorem filterMap_fst_of_map (l : List (CodeBlock × (Option String × CodeBlock))) :
    l.filterMap (fun p => p.2.1)
      = (l.map (fun p => p.2.1)).filterMap id := by
  rw [List.filterMap_map]
  rfl

/-- Claim C8: after `updateGroupVisibility` runs on a group with at least
one detected code block (detection yielding, as it always does for
plugin-written data, a member of `CONFIG.frameworks`, with the empty
string not a configured framework), at least one code block of the group
is visible; and when no block's framework matches the current one, every
block of the first available framework (in `CONFIG.frameworks` order) is
left unhidden. -/
theorem claim_C8 (cfg : Config) (cur : String) (members : List GElem)
    (hempty : "" ∉ cfg.frameworks)
    (hdet : ∃ fw, fw ∈ collectFws cfg (some Elem.other) members ∧
      fw ∈ cfg.frameworks) :
    (∃ cb ∈ memberBlocks (updateGroupVisibility cfg cur members),
      cb.preHidden = false) ∧
    (cur ∉ collectFws cfg (some Elem.other) members →
      ∃ first rest2, getAvailableFrameworks cfg members = first :: rest2 ∧
        ∀ cb ∈ memberBlocks (updateGroupVisibility cfg cur members),
          cb.datasetFramework = some first → cb.preHidden = false) := by
  obtain ⟨fwd, hfwcol, hfwmem⟩ := hdet
  have hcolm := collectFws_pairs cfg members (some Elem.other)
  have hstab := detectPairs_fst_stable cfg cur members (some Elem.other)
    (some Elem.other) rfl
  have hcoll_eq : collectFws cfg (some Elem.other)
      (ugvPass1 cfg cur (some Elem.other) members).1
      = collectFws cfg (some Elem.other) members := by
    rw [collectFws_pairs, collectFws_pairs, filterMap_fst_of_map,
      filterMap_fst_of_map, hstab]
  have havail_eq : getAvailableFrameworks cfg
      (ugvPass1 cfg cur (some Elem.other) members).1
      = getAvailableFrameworks cfg members := by
    unfold getAvailableFrameworks
    rw [hcoll_eq]
  by_cases hcur : cur ∈ collectFws cfg (some Elem.other) members
  · -- some block matches the current framework
    have hpair : ∃ p ∈ detectPairs cfg (some Elem.other) members,
        p.2.1 = some cur := by
      rw [hcolm] at hcur
      obtain ⟨p, hp, hpv⟩ := List.mem_filterMap.mp hcur
      exact ⟨p, hp, hpv⟩
    have hflag : (ugvPass1 cfg cur (some Elem.other) members).2 = true := by
      rw [ugvPass1_flag]
      rw [List.any_eq_true]
      obtain ⟨p, hp, hpv⟩ := hpair
      exact ⟨p, hp, by simp [hpv]⟩
    have hupd : updateGroupVisibility cfg cur members
        = (ugvPass1 cfg cur (some Elem.other) members).1 := by
      unfold updateGroupVisibility
      dsimp only
      rw [hflag]
      simp
    constructor
    · obtain ⟨p, hp, hpv⟩ := hpair
      refine ⟨hideByCur cur p.2, ?_, ?_⟩
      · rw [hupd, ugvPass1_blocks]
        exact List.mem_map.mpr ⟨p, hp, rfl⟩
      · unfold hideByCur
        rw [hpv]
        simp
    · intro hcontra
      exact absurd hcur hcontra
  · -- no block matches the current framework: the fallback pass runs
    have hflag : (ugvPass1 cfg cur (some Elem.other) members).2 = false := by
      rw [ugvPass1_flag]
      rw [List.any_eq_false]
      intro p hp
      intro hpv
      apply hcur
      rw [hcolm]
      exact List.mem_filterMap.mpr ⟨p, hp, by simpa using hpv⟩
    have hpairs_ne : detectPairs cfg (some Elem.other) members ≠ [] := by
      intro hnil
      rw [hcolm, hnil] at hfwcol
      simp at hfwcol
    have hhas : hasCodeBlock (ugvPass1 cfg cur (some Elem.other) members).1
        = true := by
      rw [hasCodeBlock_iff, ugvPass1_blocks]
      rcases hd : detectPairs cfg (some Elem.other) members with _ | ⟨p, rest⟩
      · exact absurd hd hpairs_ne
      · simp
    have havail_ne : fwd ∈ getAvailableFrameworks cfg members := by
      unfold getAvailableFrameworks
      rw [List.mem_filter]
      exact ⟨hfwmem, by simpa using hfwcol⟩
    rcases hav : getAvailableFrameworks cfg members with _ | ⟨first, rest2⟩
    · rw [hav] at havail_ne
      exact absurd havail_ne (by simp)
    · have hfirstmem : first ∈ cfg.frameworks := by
        have : first ∈ getAvailableFrameworks cfg members := by
          rw [hav]
          exact List.mem_cons_self first rest2
        unfold getAvailableFrameworks at this
        exact (List.mem_filter.mp this).1
      have hfirstne : first ≠ "" := fun hc => hempty (hc ▸ hfirstmem)
      have hfirstcol : first ∈ collectFws cfg (some Elem.other) members := by
        have : first ∈ getAvailableFrameworks cfg members := by
          rw [hav]
          exact List.mem_cons_self first rest2
        unfold getAvailableFrameworks at this
        simpa using (List.mem_filter.mp this).2
      have hupd : updateGroupVisibility cfg cur members
          = ugvPass2 cfg first (some Elem.other)
              (ugvPass1 cfg cur (some Elem.other) members).1 := by
        unfold updateGroupVisibility
        dsimp only
        rw [hflag, hhas]
        simp only [Bool.not_false, Bool.true_and, if_pos]
        rw [havail_eq, hav]
      have hblocks2 := ugvPass2_blocks cfg first
        (ugvPass1 cfg cur (some Elem.other) members).1 (some Elem.other)
      -- the first available framework occurs among the pass-one pairs
      have hfirstpair : ∃ q ∈ detectPairs cfg (some Elem.other)
          (ugvPass1 cfg cur (some Elem.other) members).1,
          q.2.1 = some first := by
        have : first ∈ collectFws cfg (some Elem.other)
            (ugvPass1 cfg cur (some Elem.other) members).1 := by
          rw [hcoll_eq]
          exact hfirstcol
        rw [collectFws_pairs] at this
        obtain ⟨q, hq, hqv⟩ := List.mem_filterMap.mp this
        exact ⟨q, hq, hqv⟩
      constructor
      · obtain ⟨q, hq, hqv⟩ := hfirstpair
        refine ⟨{ q.2.2 with preHidden := false }, ?_, rfl⟩
        rw [hupd, hblocks2]
        refine List.mem_map.mpr ⟨q, hq, ?_⟩
        rw [if_pos hqv]
      · intro _
        refine ⟨first, rest2, rfl, ?_⟩
        intro cb hcb hds
        rw [hupd, hblocks2] at hcb
        obtain ⟨q, hq, hqcb⟩ := List.mem_map.mp hcb
        by_cases hqv : q.2.1 = some first
        · rw [if_pos hqv] at hqcb
          rw [← hqcb]
        · rw [if_neg hqv] at hqcb
          subst hqcb
          obtain ⟨pv, hshape⟩ := detectPairs_mem_shape cfg _ (some Elem.other)
            q hq
          rcases hq1 : q.2.1 with _ | g
          · have hsnd : q.2.2 = q.1 := by
              rw [hshape]
              apply detect_none_snd
              rw [← hshape, hq1]
            rw [hsnd] at hds
            have : (detectFramework cfg q.1 pv).1 = some first := by
              rw [detectFramework_cached cfg q.1 pv first hds hfirstne]
            rw [← hshape, hq1] at this
            exact absurd this (by simp)
          · have : q.2.2.datasetFramework = some g := by
              rw [hshape]
              apply detect_fst_some_dataset
              rw [← hshape, hq1]
            rw [hds] at this
            obtain rfl : first = g := by simpa using this
            exact absurd hq1 hqv

/-- Witness for claim C8: a two-block group with no block matching the
current framework. -/
theorem claim_C8_witness :
    (∃ cb ∈ memberBlocks (updateGroupVisibility cfgDemo "koa"
      [GElem.gpre demoBlockHono, GElem.gpre demoBlockExpress]),
        cb.preHidden = false) ∧
    ("koa" ∉ collectFws cfgDemo (some Elem.other)
        [GElem.gpre demoBlockHono, GElem.gpre demoBlockExpress] →
      ∃ first rest2, getAvailableFrameworks cfgDemo
          [GElem.gpre demoBlockHono, GElem.gpre demoBlockExpress]
          = first :: rest2 ∧
        ∀ cb ∈ memberBlocks (updateGroupVisibility cfgDemo "koa"
          [GElem.gpre demoBlockHono, GElem.gpre demoBlockExpress]),
          cb.datasetFramework = some first → cb.preHidden = false) :=
  claim_C8 cfgDemo "koa" [GElem.gpre demoBlockHono, GElem.gpre demoBlockExpress]
    (by decide) ⟨"hono", by decide, by decide⟩

theorem step_code_join (cfg : Config) (cur : String) (st : PState)
    (prev : Option Elem) (cb : CodeBlock) (fw : String)
    (hds : cb.datasetFramework = none)
    (hdet : (detectFramework cfg cb prev).1 = some fw)
    (hpend : ∀ e ∈ st.pend, skippable cfg e = true)
    (hzero : st.nblocks = 0 →
      st.batch = [] ∧ st.bfws = [] ∧ st.left = [] ∧ st.pend = []) :
    step cfg cur st prev (Elem.code cb) =
      { st with
        batch := st.batch ++ st.pend.filterMap (labelOf cfg)
          ++ [GElem.gpre (batchBlock cfg cb fw)],
        nblocks := st.nblocks + 1,
        bfws := addFw st.bfws fw,
        left := st.left ++ st.pend.filter (fun e => !isLabelPara cfg e),
        pend := [] } := by
  have hsnd : (detectFramework cfg cb prev).2
      = { cb with datasetFramework := some fw } := by
    rw [detectFramework_fresh cfg cb prev hds] at hdet ⊢
    exact detectStore_snd_of_fst cfg cb prev fw hdet
  rw [step]
  dsimp only
  rw [hdet]
  dsimp only
  by_cases hz : st.nblocks = 0
  · obtain ⟨hb, hf, hl, hp⟩ := hzero hz
    rw [if_pos hz]
    simp [hz, hb, hf, hl, hp, hsnd, batchBlock]
  · rw [if_neg hz]
    have hall : st.pend.all (skippable cfg) = true := List.all_eq_true.mpr hpend
    rw [hall]
    simp [hsnd, batchBlock]

theorem foldl_some_getLastD :
    ∀ (l : List Elem) (d : Elem),
      l.foldl (fun _ e => some e) (some d) = some (l.getLastD d)
  | [], d => rfl
  | e :: rest, d => by
    rw [List.foldl_cons, List.getLastD_cons]
    exact foldl_some_getLastD rest e

theorem runElems_absorb (cfg : Config) (cur : String) :
    ∀ (seps : List Elem) (st : PState) (prev : Option Elem) (tail : List Elem),
      st.nblocks ≠ 0 →
      (∀ e ∈ seps, skippable cfg e = true) →
      runElems cfg cur st prev (seps ++ tail) =
        runElems cfg cur { st with pend := st.pend ++ seps }
          (seps.foldl (fun _ e => some e) prev) tail
  | [], st, prev, tail, _, _ => by simp
  | e :: rest2, st, prev, tail, hnb, hsk => by
    obtain ⟨t, rfl⟩ : ∃ t, e = Elem.para t := by
      rcases e with cb | t | _
      · exact absurd (hsk _ (List.mem_cons_self _ _)) (by simp [skippable])
      · exact ⟨t, rfl⟩
      · exact absurd (hsk _ (List.mem_cons_self _ _)) (by simp [skippable])
    rw [List.cons_append, runElems]
    have hstep : step cfg cur st prev (Elem.para t)
        = { st with pend := st.pend ++ [Elem.para t] } := by
      have heq : step cfg cur st prev (Elem.para t) =
          if st.nblocks = 0 then
            { st with out := st.out ++ [elemToOut (Elem.para t)] }
          else { st with pend := st.pend ++ [Elem.para t] } := rfl
      rw [heq, if_neg hnb]
    rw [hstep]
    rw [runElems_absorb cfg cur rest2
      { st with pend := st.pend ++ [Elem.para t] } (some (Elem.para t)) tail
      hnb (fun x hx => hsk x (List.mem_cons_of_mem _ hx))]
    rw [List.foldl_cons]
    congr 1
    simp

theorem runElems_adjacentRun (cfg : Config) (cur : String)
    (prev : Option Elem) (cb : CodeBlock)
    (rest : List (List Elem × CodeBlock)) (fws : List String)
    (hrun : AdjacentRun cfg prev cb rest fws) :
    ∀ st : PState,
      (∀ e ∈ st.pend, skippable cfg e = true) →
      (st.nblocks = 0 →
        st.batch = [] ∧ st.bfws = [] ∧ st.left = [] ∧ st.pend = []) →
      runElems cfg cur st prev (runPage cb rest) =
        { out := st.out,
          batch := st.batch ++ st.pend.filterMap (labelOf cfg)
            ++ rawMembers cfg cb rest fws,
          nblocks := st.nblocks + (1 + rest.length),
          bfws := fws.foldl addFw st.bfws,
          left := st.left ++ st.pend.filter (fun e => !isLabelPara cfg e)
            ++ leftoversOf cfg rest,
          pend := [] } := by
  induction hrun with
  | single prev cb fw hds hms hph hdet =>
    intro st hpend hzero
    rw [runPage, runElems, runElems]
    rw [step_code_join cfg cur st prev cb fw hds hdet hpend hzero]
    rw [rawMembers]
    simp [leftoversOf]
  | cons prev cb fw seps cb2 rest2 fws2 hds hms hph hdet hseps htail ih =>
    intro st hpend hzero
    rw [runPage, runElems]
    rw [step_code_join cfg cur st prev cb fw hds hdet hpend hzero]
    rw [runElems_absorb cfg cur seps _ _ _ (by simp) hseps]
    rw [foldl_some_getLastD]
    rw [ih _ (by simpa using hseps) (by intro h; simp at h)]
    rw [rawMembers]
    rw [show leftoversOf cfg ((seps, cb2) :: rest2)
      = seps.filter (fun e => !isLabelPara cfg e) ++ leftoversOf cfg rest2
      from rfl]
    simp only [PState.mk.injEq, List.length_cons, List.foldl_cons,
      List.append_assoc, List.nil_append, List.cons_append,
      List.singleton_append, true_and, and_true, eq_self_iff_true]
    omega

theorem adjacentRun_length (cfg : Config) (prev : Option Elem)
    (cb : CodeBlock) (rest : List (List Elem × CodeBlock)) (fws : List String)
    (hrun : AdjacentRun cfg prev cb rest fws) :
    fws.length = rest.length + 1 := by
  induction hrun with
  | single _ _ _ => rfl
  | cons prev2 cb2 fw2 seps2 cb3 rest3 fws3 hds hms hph hdet hseps htail ih =>
    simpa using ih

theorem mem_addFw (l : List String) (fw x : String) :
    x ∈ addFw l fw ↔ x ∈ l ∨ x = fw := by
  unfold addFw
  split
  · next hc =>
    constructor
    · exact Or.inl
    · rintro (h | rfl)
      · exact h
      · simpa using hc
  · simp

theorem mem_foldl_addFw :
    ∀ (fws acc : List String) (x : String),
      x ∈ fws.foldl addFw acc ↔ x ∈ acc ∨ x ∈ fws
  | [], acc, x => by simp
  | fw :: rest, acc, x => by
    rw [List.foldl_cons, mem_foldl_addFw rest (addFw acc fw) x, mem_addFw]
    constructor
    · rintro ((h | rfl) | h)
      · exact Or.inl h
      · exact Or.inr (List.mem_cons_self _ _)
      · exact Or.inr (List.mem_cons_of_mem _ h)
    · rintro (h | h)
      · exact Or.inl (Or.inl h)
      · rcases List.mem_cons.mp h with rfl | h
        · exact Or.inl (Or.inr rfl)
        · exact Or.inr h

theorem filter_foldl_addFw (cfg : Config) (fws : List String) :
    cfg.frameworks.filter (fun fw => (fws.foldl addFw []).contains fw)
      = availOf cfg fws := by
  unfold availOf
  apply List.filter_congr
  intro a _
  have h : a ∈ fws.foldl addFw [] ↔ a ∈ fws := by
    rw [mem_foldl_addFw]
    simp
  simp [h]

theorem rawMembers_props (cfg : Config) (prev : Option Elem) (cb : CodeBlock)
    (rest : List (List Elem × CodeBlock)) (fws : List String)
    (hrun : AdjacentRun cfg prev cb rest fws) :
    ∀ cb2 ∈ memberBlocks (rawMembers cfg cb rest fws),
      ∃ fw ∈ cfg.frameworks,
        cb2.datasetFramework = some fw ∧ cb2.preHidden = false := by
  induction hrun with
  | single prev cb fw hds hms hph hdet =>
    intro cb2 hcb2
    rw [rawMembers, memberBlocks_cons_gpre, memberBlocks_nil] at hcb2
    rw [List.mem_singleton] at hcb2
    subst hcb2
    refine ⟨fw, ?_, ?_, ?_⟩
    · rw [detectFramework_fresh cfg cb prev hds] at hdet
      exact detectStore_fst_mem cfg cb prev fw hdet
    · rw [batchBlock, stripMarkerLine_datasetFramework]
    · rw [batchBlock, stripMarkerLine_preHidden]
      exact hph
  | cons prev cb fw seps cb2 rest2 fws2 hds hms hph hdet hseps htail ih =>
    intro cb3 hcb3
    rw [rawMembers] at hcb3
    simp only [memberBlocks_cons_gpre, memberBlocks_append,
      memberBlocks_labels, List.nil_append] at hcb3
    rcases List.mem_cons.mp hcb3 with rfl | hcb3
    · refine ⟨fw, ?_, ?_, ?_⟩
      · rw [detectFramework_fresh cfg cb prev hds] at hdet
        exact detectStore_fst_mem cfg cb prev fw hdet
      · rw [batchBlock, stripMarkerLine_datasetFramework]
      · rw [batchBlock, stripMarkerLine_preHidden]
        exact hph
    · exact ih cb3 hcb3

theorem applyInitialVisibility_eq_cached (cfg : Config) (sel : String) :
    ∀ (ms : List GElem) (prev : Option Elem),
      (∀ cb ∈ memberBlocks ms, ∃ fw, fw ≠ "" ∧ cb.datasetFramework = some fw) →
      applyInitialVisibility cfg sel prev ms = applyVisCached sel ms
  | [], _, _ => rfl
  | GElem.glabel t :: rest, prev, h => by
    rw [applyInitialVisibility]
    rw [memberBlocks_cons_glabel] at h
    rw [applyInitialVisibility_eq_cached cfg sel rest (some (Elem.para t)) h]
    rfl
  | GElem.gpre cb :: rest, prev, h => by
    obtain ⟨fw, hne, hds⟩ := h cb (by
      rw [memberBlocks_cons_gpre]
      exact List.mem_cons_self _ _)
    rw [applyInitialVisibility]
    dsimp only
    rw [detectFramework_cached cfg cb prev fw hds hne]
    dsimp only
    rw [applyInitialVisibility_eq_cached cfg sel rest (some (Elem.code cb))
      (fun x hx => h x (by
        rw [memberBlocks_cons_gpre]
        exact List.mem_cons_of_mem _ hx))]
    have hva : visApply sel cb
        = if fw = sel then cb else { cb with preHidden := true } := by
      unfold visApply
      rw [hds]
    simp only [applyVisCached, List.map_cons, hva]

theorem memberBlocks_applyVisCached (sel : String) :
    ∀ ms : List GElem,
      memberBlocks (applyVisCached sel ms)
        = (memberBlocks ms).map (visApply sel)
  | [] => rfl
  | GElem.glabel t :: rest => by
    rw [applyVisCached, List.map_cons]
    dsimp only
    rw [memberBlocks_cons_glabel, memberBlocks_cons_glabel]
    exact memberBlocks_applyVisCached sel rest
  | GElem.gpre cb :: rest => by
    rw [applyVisCached, List.map_cons]
    dsimp only
    rw [memberBlocks_cons_gpre, memberBlocks_cons_gpre, List.map_cons]
    congr 1
    exact memberBlocks_applyVisCached sel rest

theorem countGroups_nongroup_map (l : List Elem) :
    countGroups (l.map elemToOut) = 0 := by
  unfold countGroups
  rw [List.countP_eq_zero]
  intro e he
  obtain ⟨x, _, rfl⟩ := List.mem_map.mp he
  rcases x with cb | t | _ <;> simp [elemToOut]

/-- Claim C1 as corrected.  For a page consisting of a run of `N`
adjacent annotated code blocks (same parent, separated only by empty or
framework-label paragraphs) with at least two distinct framework tags
(no configured framework being the empty string), `processPage` creates
exactly one group with exactly one switcher (the group's first child by
construction), holding the run's blocks and label paragraphs; afterwards
only the blocks whose detected framework equals the group's selected
framework are visible, where that selected framework is the current
framework when it is among the run's tags and otherwise the first of the
run's tags in `CONFIG.frameworks` order. -/
theorem claim_C1_amended (cfg : Config) (cur : String) (cb : CodeBlock)
    (rest : List (List Elem × CodeBlock)) (fws : List String)
    (hrun : AdjacentRun cfg none cb rest fws)
    (hdis : ∃ a ∈ fws, ∃ b ∈ fws, a ≠ b)
    (hempty : "" ∉ cfg.frameworks) :
    processPage cfg cur (runPage cb rest) =
      OutElem.ogroup
        (createSwitcher cfg (selectedFor cur (availOf cfg fws))
          (availOf cfg fws))
        (applyVisCached (selectedFor cur (availOf cfg fws))
          (rawMembers cfg cb rest fws))
      :: (leftoversOf cfg rest).map elemToOut ∧
    countGroups (processPage cfg cur (runPage cb rest)) = 1 ∧
    ∀ cb2 ∈ memberBlocks (applyVisCached (selectedFor cur (availOf cfg fws))
        (rawMembers cfg cb rest fws)),
      (cb2.preHidden = false ↔
        cb2.datasetFramework = some (selectedFor cur (availOf cfg fws))) := by
  have hlen := adjacentRun_length cfg none cb rest fws hrun
  have hrest : 1 ≤ rest.length := by
    by_contra hc
    have hr0 : rest.length = 0 := by omega
    rw [hr0] at hlen
    obtain ⟨a, ha, b, hb, hab⟩ := hdis
    rcases fws with _ | ⟨x, xs⟩
    · simp at hlen
    · have hxs : xs = [] := by
        rw [List.length_cons] at hlen
        exact List.length_eq_zero.mp (by omega)
      subst hxs
      rw [List.mem_singleton] at ha hb
      exact hab (ha.trans hb.symm)
  have hprops := rawMembers_props cfg none cb rest fws hrun
  have hcached := applyInitialVisibility_eq_cached cfg
    (selectedFor cur (availOf cfg fws)) (rawMembers cfg cb rest fws)
    (some Elem.other)
    (fun cb2 hcb2 => by
      obtain ⟨fw, hmem, hds, _⟩ := hprops cb2 hcb2
      exact ⟨fw, fun hc => hempty (hc ▸ hmem), hds⟩)
  have hmain : processPage cfg cur (runPage cb rest) =
      OutElem.ogroup
        (createSwitcher cfg (selectedFor cur (availOf cfg fws))
          (availOf cfg fws))
        (applyVisCached (selectedFor cur (availOf cfg fws))
          (rawMembers cfg cb rest fws))
      :: (leftoversOf cfg rest).map elemToOut := by
    unfold processPage
    rw [runElems_adjacentRun cfg cur none cb rest fws hrun {}
      (by intro e he; simp at he) (fun _ => ⟨rfl, rfl, rfl, rfl⟩)]
    rw [closeBatch]
    rw [if_neg (by simp; omega)]
    dsimp only
    rw [filter_foldl_addFw cfg fws]
    simp only [List.nil_append, List.filterMap_nil, List.map_nil,
      List.append_nil, List.filter_nil, List.singleton_append]
    rw [hcached]
  refine ⟨hmain, ?_, ?_⟩
  · rw [hmain]
    unfold countGroups
    rw [List.countP_cons]
    have h0 := countGroups_nongroup_map (leftoversOf cfg rest)
    unfold countGroups at h0
    rw [h0]
    simp
  · intro cb2 hcb2
    rw [memberBlocks_applyVisCached] at hcb2
    obtain ⟨cb3, hcb3, rfl⟩ := List.mem_map.mp hcb2
    obtain ⟨fw, hmem, hds, hph⟩ := hprops cb3 hcb3
    have hva : visApply (selectedFor cur (availOf cfg fws)) cb3 =
        if fw = selectedFor cur (availOf cfg fws) then cb3
        else { cb3 with preHidden := true } := by
      unfold visApply
      rw [hds]
    rw [hva]
    by_cases hsel : fw = selectedFor cur (availOf cfg fws)
    · rw [if_pos hsel]
      rw [hph, hds, hsel]
      simp
    · rw [if_neg hsel]
      constructor
      · intro hcontra
        simp at hcontra
      · intro hcontra
        rw [hds] at hcontra
        exact absurd (by simpa using hcontra) hsel

/-- Counterexample to claim C1 as stated: with the current framework not
among the run's tags, the group shows the first available framework's
block instead of hiding every non-current block. -/
theorem claim_C1_counterexample :
    AdjacentRun cfgDemo none demoBlockHono [([], demoBlockExpress)]
      ["hono", "express"] ∧
    ("hono" : String) ≠ "express" ∧
    allNonCurrentHidden "koa"
      (processPage cfgDemo "koa"
        (runPage demoBlockHono [([], demoBlockExpress)])) = false := by
  refine ⟨?_, by decide, by rfl⟩
  refine AdjacentRun.cons none demoBlockHono "hono" [] demoBlockExpress
    [] ["express"] rfl rfl rfl (by rfl) (by intro e he; simp at he) ?_
  exact AdjacentRun.single _ demoBlockExpress "express" rfl rfl rfl (by rfl)

/-- Witness for the corrected claim C1: the two-block demonstration run
processed with a current framework that is not among its tags. -/
theorem claim_C1_witness :
    processPage cfgDemo "koa" (runPage demoBlockHono [([], demoBlockExpress)]) =
      OutElem.ogroup
        (createSwitcher cfgDemo
          (selectedFor "koa" (availOf cfgDemo ["hono", "express"]))
          (availOf cfgDemo ["hono", "express"]))
        (applyVisCached (selectedFor "koa" (availOf cfgDemo ["hono", "express"]))
          (rawMembers cfgDemo demoBlockHono [([], demoBlockExpress)]
            ["hono", "express"]))
      :: (leftoversOf cfgDemo [([], demoBlockExpress)]).map elemToOut ∧
    countGroups (processPage cfgDemo "koa"
      (runPage demoBlockHono [([], demoBlockExpress)])) = 1 ∧
    ∀ cb2 ∈ memberBlocks (applyVisCached
        (selectedFor "koa" (availOf cfgDemo ["hono", "express"]))
        (rawMembers cfgDemo demoBlockHono [([], demoBlockExpress)]
          ["hono", "express"])),
      (cb2.preHidden = false ↔
        cb2.datasetFramework
          = some (selectedFor "koa" (availOf cfgDemo ["hono", "express"]))) :=
  claim_C1_amended cfgDemo "koa" demoBlockHono [([], demoBlockExpress)]
    ["hono", "express"]
    (AdjacentRun.cons none demoBlockHono "hono" [] demoBlockExpress
      [] ["express"] rfl rfl rfl (by rfl) (by intro e he; simp at he)
      (AdjacentRun.single _ demoBlockExpress "express" rfl rfl rfl (by rfl)))
    ⟨"hono", by decide, "express", by decide, by decide⟩
    (by decide)

end FwSwitcher

namespace OnThisPage

theorem pushLi_links (st : TocState) (n : Node) :
    (pushLi st n).links = st.links := by
  unfold pushLi
  split <;> rfl

theorem adjustNesting_links (st : TocState) (l : Nat) :
    (adjustNesting st l).links = st.links := by
  unfold adjustNesting
  split
  · rfl
  · split <;> rfl

theorem processHeading_skip (route hash : String) (st : TocState)
    (h : Heading) (h1 : h.level = 1) :
    processHeading route hash st h = (st, h) := by
  unfold processHeading
  rw [if_pos h1]

theorem processHeading_links (route hash : String) (st : TocState)
    (h : Heading) (hne : h.level ≠ 1) :
    (processHeading route hash st h).1.links
      = st.links ++ [specC5Link route hash h] := by
  unfold processHeading
  rw [if_neg hne]
  dsimp only
  rw [pushLi_links, adjustNesting_links]
  rfl

theorem processHeading_snd (route hash : String) (st : TocState)
    (h : Heading) :
    (processHeading route hash st h).2 = specC5Heading h := by
  unfold processHeading specC5Heading
  by_cases h1 : h.level = 1
  · rw [if_pos h1, if_pos h1]
  · rw [if_neg h1, if_neg h1]
    dsimp only
    unfold specC5Slug
    by_cases h2 : h.id = ""
    · simp [h2]
    · simp [h2]

theorem specC5Links_cons_one (route hash : String) (h : Heading)
    (hs : List Heading) (h1 : h.level = 1) :
    specC5Links route hash (h :: hs) = specC5Links route hash hs := by
  simp [specC5Links, List.filter_cons, h1]

theorem specC5Links_cons_ne (route hash : String) (h : Heading)
    (hs : List Heading) (h1 : h.level ≠ 1) :
    specC5Links route hash (h :: hs)
      = specC5Link route hash h :: specC5Links route hash hs := by
  simp [specC5Links, List.filter_cons, h1]

theorem buildTocAux_links (route hash : String) (hs : List Heading) :
    ∀ st : TocState,
      (buildTocAux route hash st hs).1.links
        = st.links ++ specC5Links route hash hs ∧
      (buildTocAux route hash st hs).2 = hs.map specC5Heading := by
  induction hs with
  | nil =>
    intro st
    exact ⟨by simp [buildTocAux, specC5Links], rfl⟩
  | cons h hs ih =>
    intro st
    unfold buildTocAux
    dsimp only
    refine ⟨?_, ?_⟩
    · rw [(ih (processHeading route hash st h).1).1]
      by_cases h1 : h.level = 1
      · rw [processHeading_skip route hash st h h1,
          specC5Links_cons_one route hash h hs h1]
      · rw [processHeading_links route hash st h h1,
          specC5Links_cons_ne route hash h hs h1, List.append_assoc]
        rfl
    · rw [(ih (processHeading route hash st h).1).2, processHeading_snd]
      rfl

/-- Claim C5: for every heading of level other than 1 the plugin creates,
in document order, a sidebar link whose `href` is the permalink
`#/<path>?id=<slug>` — `<path>` the Docsify route without its leading
slash, falling back to the location-hash path and then to `"README"`,
`<slug>` the heading's existing id or the slug generated from its text —
with the trimmed heading text as link text and the slug as
`data-heading-id`; a heading of level 2-6 without an id receives that
slug as its id, other headings being left untouched. -/
theorem claim_C5 (route hash : String) (hs : List Heading) :
    (buildToc route hash hs).2.1 = specC5Links route hash hs ∧
    (buildToc route hash hs).2.2 = hs.map specC5Heading := by
  unfold buildToc
  dsimp only
  have h := buildTocAux_links route hash hs {}
  exact ⟨by rw [h.1]; rfl, h.2⟩

/-- Claim C2 fails on the code: for the page with an `h2` followed by an
`h3`, the spec expects the `h2` link at the top level and the `h3` link
one level deeper, but the builder places both links one list level below
the top-level list — the push loop `for (i = currentLevel; i < level - 1;
i++)` opens a list for the very first `h2` (currentLevel `0`,
`level - 1 = 1`) and none for the following `h3`. -/
theorem claim_C2 :
    nodeListDepths 0 (buildToc "/guide" "" demoHeadings).1
      = [("alpha", 1), ("beta", 1)] ∧
    specC2Depths demoHeadings = [("alpha", 0), ("beta", 1)] ∧
    nodeListDepths 0 (buildToc "/guide" "" demoHeadings).1
      ≠ specC2Depths demoHeadings := by
  refine ⟨by rfl, by rfl, by decide⟩

theorem find_filter_head {α : Type} (p : α → Bool) (l : List α) :
    l.find? p = (l.filter p).head? := by
  induction l with
  | nil => rfl
  | cons a l ih =>
    by_cases hpa : p a = true
    · rw [List.find?_cons_of_pos l hpa, List.filter_cons_of_pos hpa]
      rfl
    · rw [List.find?_cons_of_neg l hpa, List.filter_cons_of_neg hpa, ih]

theorem activeHeadingId_spec (heads : List (String × Int)) :
    activeHeadingId heads = specActiveHeading heads := by
  have key : heads.reverse.find? (fun h => h.2 ≤ 100)
      = (heads.filter (fun h => h.2 ≤ 100)).getLast? := by
    rw [find_filter_head, List.filter_reverse, List.head?_reverse]
  unfold activeHeadingId specActiveHeading
  rw [key]
  rcases hq : (heads.filter (fun h => h.2 ≤ 100)).getLast? with _ | h <;>
    rw [hq] <;> rfl

theorem activeHeadingId_isSome (heads : List (String × Int))
    (hne : heads ≠ []) : (activeHeadingId heads).isSome = true := by
  unfold activeHeadingId
  cases hf : heads.reverse.find? (fun h => h.2 ≤ 100) with
  | some p => rfl
  | none =>
    cases heads with
    | nil => exact absurd rfl hne
    | cons q hs => rfl

theorem activeHeadingId_mem (heads : List (String × Int)) (i : String)
    (h : activeHeadingId heads = some i) : i ∈ heads.map (fun q => q.1) := by
  unfold activeHeadingId at h
  cases hf : heads.reverse.find? (fun h => h.2 ≤ 100) with
  | some p =>
    rw [hf] at h
    have hp : p ∈ heads.reverse := List.mem_of_find?_eq_some hf
    rw [List.mem_reverse] at hp
    have hpi : p.1 = i := by
      have h2 : some p.1 = some i := h
      injection h2
    exact hpi ▸ List.mem_map_of_mem _ hp
  | none =>
    rw [hf] at h
    cases heads with
    | nil => cases h
    | cons q hs =>
      have hpi : q.1 = i := by
        have h2 : some q.1 = some i := h
        injection h2
      exact hpi ▸ List.mem_map_of_mem _ (List.mem_cons_self q hs)

theorem markFirst_props (i : String) :
    ∀ ls : List (TocLink × Bool),
      (∀ lb ∈ ls, lb.2 = false) →
      (∃ lb ∈ ls, lb.1.hid = i) →
      (markFirst ls i).countP (fun lb => lb.2) = 1 ∧
      ∀ lb ∈ markFirst ls i, lb.2 = true → lb.1.hid = i := by
  intro ls
  induction ls with
  | nil =>
    intro _ hmem
    simp at hmem
  | cons a ls ih =>
    intro hall hmem
    obtain ⟨l, b⟩ := a
    have hb : b = false := hall (l, b) (List.mem_cons_self _ _)
    subst hb
    have hstep : markFirst ((l, false) :: ls) i =
        if l.hid = i then (l, true) :: ls
        else (l, false) :: markFirst ls i := rfl
    by_cases hl : l.hid = i
    · rw [hstep, if_pos hl]
      have hz : List.countP (fun lb => lb.2) ls = 0 := by
        rw [List.countP_eq_zero]
        intro lb hlb
        simp [hall lb (List.mem_cons_of_mem _ hlb)]
      refine ⟨by simp [List.countP_cons, hz], ?_⟩
      intro lb hlb hact
      rcases List.mem_cons.mp hlb with rfl | hmem2
      · exact hl
      · rw [hall lb (List.mem_cons_of_mem _ hmem2)] at hact
        cases hact
    · have hmem2 : ∃ lb ∈ ls, lb.1.hid = i := by
        obtain ⟨lb, hlb, hi⟩ := hmem
        rcases List.mem_cons.mp hlb with rfl | h2
        · exact absurd hi hl
        · exact ⟨lb, h2, hi⟩
      have ihh := ih (fun lb hlb => hall lb (List.mem_cons_of_mem _ hlb)) hmem2
      rw [hstep, if_neg hl]
      refine ⟨by simp [List.countP_cons, ihh.1], ?_⟩
      intro lb hlb hact
      rcases List.mem_cons.mp hlb with rfl | h2
      · cases hact
      · exact ihh.2 lb h2 hact

/-- Claim C6: whenever `setupScrollSpy` installs the spy (some heading
resolves), its initial `updateActiveLink` leaves exactly one link marked
active after clearing them all, and that link's heading is the active
one — the last heading in document order whose bounding-rect top is at
most 100 pixels, or the first heading when none qualifies. -/
theorem claim_C6 (links : List (TocLink × Bool)) (resolves : String → Bool)
    (topOf : String → Int) (out : List (TocLink × Bool))
    (hout : setupScrollSpy links resolves topOf = some out) :
    ∃ i, activeHeadingId (headsOf links resolves topOf) = some i ∧
      specActiveHeading (headsOf links resolves topOf) = some i ∧
      out.countP (fun lb => lb.2) = 1 ∧
      ∀ lb ∈ out, lb.2 = true → lb.1.hid = i := by
  unfold setupScrollSpy at hout
  dsimp only at hout
  by_cases hemp : (headsOf links resolves topOf).isEmpty
  · rw [if_pos hemp] at hout
    cases hout
  · rw [if_neg hemp] at hout
    simp only [Option.some.injEq] at hout
    subst hout
    have hne : headsOf links resolves topOf ≠ [] := by
      intro hnil
      rw [hnil] at hemp
      exact hemp rfl
    obtain ⟨i, hi⟩ := Option.isSome_iff_exists.mp (activeHeadingId_isSome _ hne)
    have hiMem := activeHeadingId_mem _ _ hi
    have hlink : ∃ lb ∈ links, lb.1.hid = i := by
      unfold headsOf at hiMem
      rw [List.map_map] at hiMem
      obtain ⟨lb, hlb, hid⟩ := List.mem_map.mp hiMem
      exact ⟨lb, List.mem_of_mem_filter hlb, hid⟩
    have hcl : ∀ lb ∈ links.map (fun lb => (lb.1, false)), lb.2 = false := by
      intro lb hlb
      obtain ⟨x, _, rfl⟩ := List.mem_map.mp hlb
      rfl
    have hmem2 : ∃ lb ∈ links.map (fun lb => (lb.1, false)), lb.1.hid = i := by
      obtain ⟨lb, hlb, hid⟩ := hlink
      exact ⟨(lb.1, false), List.mem_map_of_mem _ hlb, hid⟩
    have hprops := markFirst_props i (links.map (fun lb => (lb.1, false)))
      hcl hmem2
    have hupd : updateActiveLink links (headsOf links resolves topOf) =
        markFirst (links.map (fun lb => (lb.1, false))) i := by
      unfold updateActiveLink
      rw [hi]
    rw [hupd]
    exact ⟨i, hi, by rw [← activeHeadingId_spec]; exact hi, hprops.1, hprops.2⟩

/-- Witness for claim C6: two links, the first heading 10 pixels from the
top, the second 200. -/
theorem claim_C6_witness :
    ∃ i, activeHeadingId (headsOf demoLinks demoResolve demoTopOf) = some i ∧
      specActiveHeading (headsOf demoLinks demoResolve demoTopOf) = some i ∧
      demoOut.countP (fun lb => lb.2) = 1 ∧
      ∀ lb ∈ demoOut, lb.2 = true → lb.1.hid = i :=
  claim_C6 demoLinks demoResolve demoTopOf demoOut (by rfl)

theorem filter_resolves_nil (resolves : String → Bool) :
    ∀ ls : List (TocLink × Bool),
      (∀ lb ∈ ls, resolves lb.1.hid = false) →
      ls.filter (fun lb => resolves lb.1.hid) = [] := by
  intro ls
  induction ls with
  | nil =>
    intro _
    rfl
  | cons a ls ih =>
    intro h
    rw [List.filter_cons_of_neg (by simp [h a (List.mem_cons_self a ls)])]
    exact ih (fun lb hlb => h lb (List.mem_cons_of_mem a hlb))

/-- Claim C7: each utility returns early, leaving the document unchanged,
when its expected elements are absent — `createOnThisPageSidebar` builds
no sidebar for a content area without headings,
`removeNestedFromLeftSidebar` returns when `aside.sidebar` or its
`.sidebar-nav` is missing, and `setupScrollSpy` installs nothing when no
table-of-contents heading resolves to an element. -/
theorem claim_C7 (route hash : String) (d : Doc)
    (links : List (TocLink × Bool)) (resolves : String → Bool)
    (topOf : String → Int)
    (hd : d.headings = [])
    (hres : ∀ lb ∈ links, resolves lb.1.hid = false) :
    runCreateSidebar route hash d = { d with onThisPage := none } ∧
    removeNestedFromLeftSidebar none = none ∧
    removeNestedFromLeftSidebar (some none) = some none ∧
    setupScrollSpy links resolves topOf = none := by
  refine ⟨?_, rfl, rfl, ?_⟩
  · unfold runCreateSidebar
    dsimp only
    rw [hd]
    rfl
  · unfold setupScrollSpy headsOf
    dsimp only
    rw [filter_resolves_nil resolves links hres]
    rfl

/-- Witness for claim C7: a document without headings and links whose
headings never resolve. -/
theorem claim_C7_witness :
    runCreateSidebar "/guide" "" demoDoc = { demoDoc with onThisPage := none } ∧
    removeNestedFromLeftSidebar none = none ∧
    removeNestedFromLeftSidebar (some none) = some none ∧
    setupScrollSpy demoLinks demoNoResolve demoTopOf = none :=
  claim_C7 "/guide" "" demoDoc demoLinks demoNoResolve demoTopOf rfl
    (fun _ _ => rfl)

end OnThisPage
